import Mathlib

/-!
Verification of the redux-auto-slice generator (src/index.ts).

The reducers of this library operate on untyped JavaScript values: states,
payloads and entities are arbitrary JS values at runtime.  We therefore embed
the relevant fragment of JavaScript values as the inductive `JsVal`
(numbers are modelled as integers; floating point, `NaN` and non-integer
indices are outside the model).  JavaScript strict equality is modelled as
structural equality on `JsVal`: it is exact for primitives (`null`,
`undefined`, booleans, numbers, strings); for objects the source and the
specification use the same relation (`===` / strict equality), so claims
relating them are unaffected by the structural reading.

Reducers are Redux-Toolkit/Immer reducers: they either mutate the draft state
in place or return a fresh state.  Both forms are embedded as pure functions
`JsVal → JsVal → Except Unit JsVal` from (state, payload) to the next state;
`Except.error` models a thrown TypeError (a throwing reducer aborts the
dispatch and leaves the stored state unchanged, so no next state exists).
-/

mutual
/-- A JavaScript runtime value: null, undefined, boolean, number (integral
fragment), string, array, or a plain object given by its own enumerable
string-keyed fields in insertion order. -/
inductive JsVal where
  | null
  | undef
  | bool (b : Bool)
  | num (n : Int)
  | str (s : String)
  | arr (xs : JsList)
  | obj (fs : JsFields)
deriving DecidableEq, Repr

/-- A list of JS values (array elements in order). -/
inductive JsList where
  | nil
  | cons (hd : JsVal) (tl : JsList)
deriving DecidableEq, Repr

/-- Fields of a JS object, in property insertion order. -/
inductive JsFields where
  | nil
  | cons (k : String) (v : JsVal) (tl : JsFields)
deriving DecidableEq, Repr
end

/-- Convert an embedded JS array to a Lean list. -/
def JsList.toList : JsList → List JsVal
  | .nil => []
  | .cons x tl => x :: tl.toList

/-- Convert a Lean list to an embedded JS array. -/
def JsList.ofList : List JsVal → JsList
  | [] => .nil
  | x :: tl => .cons x (JsList.ofList tl)

/-- Convert embedded object fields to a Lean association list. -/
def JsFields.toList : JsFields → List (String × JsVal)
  | .nil => []
  | .cons k v tl => (k, v) :: tl.toList

/-- Convert a Lean association list to embedded object fields. -/
def JsFields.ofList : List (String × JsVal) → JsFields
  | [] => .nil
  | (k, v) :: tl => .cons k v (JsFields.ofList tl)

/-- Shorthand: array value from a Lean list. -/
@[reducible] def JsVal.arrL (xs : List JsVal) : JsVal := .arr (JsList.ofList xs)

/-- Shorthand: object value from a Lean association list. -/
@[reducible] def JsVal.objL (fs : List (String × JsVal)) : JsVal := .obj (JsFields.ofList fs)

mutual

/-- JavaScript `String(v)` conversion for the embedded values (the `toId` of the source
applies it to identifiers).  Arrays stringify as the comma-joined
stringification of their elements with `null`/`undefined` elements rendered
empty; plain objects stringify to the default object tag. -/
def jsToString : JsVal → String
  | .null => "null"
  | .undef => "undefined"
  | .bool true => "true"
  | .bool false => "false"
  | .num n => toString n
  | .str s => s
  | .obj _ => "[object Object]"
  | .arr xs => arrElemsToString xs
termination_by structural v => v

/-- `Array.prototype.toString`: comma-join, with nullish elements empty. -/
def arrElemsToString : JsList → String
  | .nil => ""
  | .cons x tl =>
      (match x with
        | .null => ""
        | .undef => ""
        | v => jsToString v)
        ++ (match tl with
            | .nil => ""
            | t => "," ++ arrElemsToString t)
termination_by structural v => v

end

/-- `toId` from the source: `String(id)`. -/
def toId (id : JsVal) : String := jsToString id

/-- Whether a value is `null` or `undefined` (JS "nullish"). -/
def JsVal.isNullish : JsVal → Bool
  | .null => true
  | .undef => true
  | _ => false

/-- JS `typeof v === "object"`: true for `null`, arrays and plain objects. -/
def JsVal.typeofObject : JsVal → Bool
  | .null => true
  | .arr _ => true
  | .obj _ => true
  | _ => false

/-- JS truthiness. -/
def JsVal.truthy : JsVal → Bool
  | .null => false
  | .undef => false
  | .bool b => b
  | .num n => n != 0
  | .str s => s ≠ ""
  | .arr _ => true
  | .obj _ => true

/-- First value bound to a key in an association list of object fields. -/
def lookupField : List (String × JsVal) → String → Option JsVal
  | [], _ => none
  | (k0, v) :: rest, k => if k0 = k then some v else lookupField rest k

/-- Property write on object fields: replace the value of an existing key in
place, else append the new property (JS object property-update order). -/
def setField : List (String × JsVal) → String → JsVal → List (String × JsVal)
  | [], k, v => [(k, v)]
  | (k0, v0) :: rest, k, v =>
      if k0 = k then (k0, v) :: rest else (k0, v0) :: setField rest k v

/-- Non-throwing property read `v[k]` on a non-nullish value: own property of
an object, `length` of an array or string, `undefined` otherwise (primitive
auto-boxing; array index properties are not needed by the source and are not
modelled). -/
def getOwn : JsVal → String → JsVal
  | .obj fs, k => (lookupField fs.toList k).getD .undef
  | .arr xs, k => if k = "length" then .num xs.toList.length else JsVal.undef
  | .str s, k => if k = "length" then .num s.length else JsVal.undef
  | _, _ => JsVal.undef

/-- Property read `v[k]`: throws a TypeError when `v` is nullish. -/
def getMemberEx (v : JsVal) (k : String) : Except Unit JsVal :=
  if v.isNullish then .error () else .ok (getOwn v k)

/-- `(item).id` as used by the array reducers: plain property access, so it
throws on a nullish item. -/
def idOfEx (item : JsVal) : Except Unit JsVal := getMemberEx item "id"

/-- `e?.id` (optional chaining) as used by the array `upsert` reducer:
`undefined` on a nullish target, never throws. -/
def optChainId (e : JsVal) : JsVal :=
  if e.isNullish then .undef else getOwn e "id"

/-- JS `k in v` after the guard `typeof v === "object" && v !== null` of the source
guards: own-key membership for objects; for arrays only `length` is modelled
(the keys the source tests, `id`/`at`/`changes`, are never array properties).
Used only where the source has already established `v` is object-typed. -/
def hasPropB : JsVal → String → Bool
  | .obj fs, k => (lookupField fs.toList k).isSome
  | .arr _, k => k = "length"
  | _, _ => false

/-- Unguarded JS `k in v` (used by `increment`/`toggle` on a stored entity):
throws a TypeError unless `v` is an object or array. -/
def hasPropEx (v : JsVal) (k : String) : Except Unit Bool :=
  match v with
  | .obj _ => .ok (hasPropB v k)
  | .arr _ => .ok (hasPropB v k)
  | _ => .error ()

/-- Property assignment `v[k] = x`.  Throws on nullish `v` and (strict mode)
on primitives.  Named-property writes on arrays (only reachable through
degenerate states outside every claim) are not modelled and also error. -/
def setMemberEx (v : JsVal) (k : String) (x : JsVal) : Except Unit JsVal :=
  match v with
  | .obj fs => .ok (.obj (JsFields.ofList (setField fs.toList k x)))
  | _ => .error ()

/-- `delete v[k]`: throws on nullish `v`, removes the key from an object,
and is a no-op on other values (deleting a property of a primitive). -/
def jsDeleteEx (v : JsVal) (k : String) : Except Unit JsVal :=
  match v with
  | .null => .error ()
  | .undef => .error ()
  | .obj fs => .ok (.obj (JsFields.ofList (fs.toList.filter (fun kv => kv.1 ≠ k))))
  | w => .ok w

/-- Own enumerable entries contributed by `...v` in an object literal:
an object spreads its fields, an array its index-keyed elements, a string its
index-keyed characters, anything else nothing. -/
def spreadFields : JsVal → List (String × JsVal)
  | .obj fs => fs.toList
  | .arr xs => (xs.toList.enum.map (fun p => (toString p.1, p.2)))
  | .str s => (s.toList.enum.map (fun p => (toString p.1, JsVal.str (String.singleton p.2))))
  | _ => []

/-- The object literal `{...target, ...changes}` (a single shallow merge
level): properties applied in order, later keys overriding earlier ones in
place. -/
def jsMerge (target changes : JsVal) : JsVal :=
  .obj (JsFields.ofList
    ((spreadFields target ++ spreadFields changes).foldl
      (fun acc kv => setField acc kv.1 kv.2) []))

/-- `Array.isArray(payload) ? payload : [payload]`. -/
def payloadItems : JsVal → List JsVal
  | .arr l => l.toList
  | p => [p]

/-- `for (const x of v)`: arrays iterate their elements, strings their
characters; other (non-nullish) values are not iterable and throw. -/
def jsIterateEx : JsVal → Except Unit (List JsVal)
  | .arr l => .ok l.toList
  | .str s => .ok (s.toList.map (fun c => JsVal.str (String.singleton c)))
  | _ => .error ()

/-- JS `n + v` for a number `n` (the `increment` write).  `undefined` cannot
reach this point: the source replaces an undefined `amount` by the default 1
before adding (JS would give `NaN`, which the integer fragment omits). -/
def jsAddNum (n : Int) : JsVal → JsVal
  | .num m => .num (n + m)
  | .str t => .str (toString n ++ t)
  | .bool b => .num (n + (if b then 1 else 0))
  | .null => .num n
  | .undef => .num n
  | .arr xs => .str (toString n ++ arrElemsToString xs)
  | .obj _ => .str (toString n ++ "[object Object]")

/-!
Collection-kind ("array adapter") reducers, from `createArrayReducers`.
-/

/-- The disambiguation guard used by the array `remove` and `update`
reducers: `payload !== null && typeof payload === "object" && "id" in payload`
(for `update` the trailing conjunct varies and is written at the use site). -/
def isIdBearing (p : JsVal) : Bool :=
  p ≠ .null && p.typeofObject && hasPropB p "id"

/-- `state.filter((item) => item.id !== payloadId)`: evaluates `item.id` on
every element (throwing on a nullish element) and keeps the elements whose
`id` is not strictly equal to `payloadId`. -/
def filterIdNe : List JsVal → JsVal → Except Unit (List JsVal)
  | [], _ => .ok []
  | x :: rest, pid => do
      let xid ← idOfEx x
      let r ← filterIdNe rest pid
      pure (if xid = pid then r else x :: r)

/-- `state.findIndex((item) => item.id === target)`: scans left to right,
evaluating `item.id` (throwing on a nullish element) until the first match. -/
def findIdxById : List JsVal → JsVal → Except Unit (Option Nat)
  | [], _ => .ok none
  | x :: rest, pid => do
      let xid ← idOfEx x
      if xid = pid then pure (some 0)
      else do
        let r ← findIdxById rest pid
        pure (r.map (· + 1))

/-- `state.filter((item) => !idSet.has(toId(item.id)))` from the array
`removeMany` identifier branch. -/
def filterIdNotIn : List JsVal → List String → Except Unit (List JsVal)
  | [], _ => .ok []
  | x :: rest, ids => do
      let xid ← idOfEx x
      let r ← filterIdNotIn rest ids
      pure (if ids.contains (toId xid) then r else x :: r)

/-- The `removeMany` identifier-detection test on the first payload item:
`arr.length > 0 && first !== null && typeof first === "object" &&
"id" in first && (typeof first.id === "string" || typeof first.id === "number")`. -/
def removeManyIsIds (items : List JsVal) : Bool :=
  match items with
  | [] => false
  | first :: _ =>
      first ≠ .null && first.typeofObject && hasPropB first "id" &&
        (match getOwn first "id" with
          | .str _ => true
          | .num _ => true
          | _ => false)

/-- The names accepted by the array adapter (`ARRAY_REDUCERS`). -/
inductive ArrayOp where
  | add | remove | clear | update | set | addMany | removeMany | upsert
deriving DecidableEq, Repr

/-- `ARRAY_REDUCERS.includes(name)`, as the partial parse used by
`createArrayReducers` to skip unknown names. -/
def toArrayOp : String → Option ArrayOp
  | "add" => some .add
  | "remove" => some .remove
  | "clear" => some .clear
  | "update" => some .update
  | "set" => some .set
  | "addMany" => some .addMany
  | "removeMany" => some .removeMany
  | "upsert" => some .upsert
  | _ => none

/-- `isArrayReducer` from the source. -/
def isArrayReducer (name : String) : Bool := (toArrayOp name).isSome

/-- Array `add`: `state.push(action.payload)`. -/
def arrayAdd (s p : JsVal) : Except Unit JsVal :=
  match s with
  | .arr xs => .ok (.arrL (xs.toList ++ [p]))
  | _ => .error ()

/-- Array `remove`: id-bearing payload filters by `item.id !== payload.id`,
any other payload filters by `item !== payload`. -/
def arrayRemove (s p : JsVal) : Except Unit JsVal :=
  match s with
  | .arr xs =>
      if isIdBearing p then do
        let r ← filterIdNe xs.toList (getOwn p "id")
        pure (.arrL r)
      else .ok (.arrL (xs.toList.filter (fun x => x ≠ p)))
  | _ => .error ()

/-- Array `clear`: `() => []` (ignores state and payload). -/
def arrayClear (_s _p : JsVal) : Except Unit JsVal := .ok (.arrL [])

/-- Array `update`: `{at, value}` replaces in bounds, `{id, changes}`
shallow-merges onto the first matching mergeable element, else no-op. -/
def arrayUpdate (s p : JsVal) : Except Unit JsVal :=
  match s with
  | .arr xs =>
      if p ≠ .null && p.typeofObject then
        if hasPropB p "at" &&
            (match getOwn p "at" with | .num _ => true | _ => false) then
          match getOwn p "at" with
          | .num a =>
              if 0 ≤ a ∧ a < xs.toList.length then
                .ok (.arrL (xs.toList.set a.toNat (getOwn p "value")))
              else .ok s
          | _ => .ok s
        else if hasPropB p "id" && hasPropB p "changes" then do
          let idx ← findIdxById xs.toList (getOwn p "id")
          match idx with
          | some i =>
              let e := xs.toList.getD i .undef
              if e ≠ .null && e.typeofObject then
                pure (.arrL (xs.toList.set i (jsMerge e (getOwn p "changes"))))
              else pure s
          | none => pure s
        else .ok s
      else .ok s
  | _ => .error ()

/-- Array `set`: `action.payload ?? []` (ignores state; a non-nullish payload
is stored verbatim, whatever its shape). -/
def arraySet (_s p : JsVal) : Except Unit JsVal :=
  .ok (if p.isNullish then .arrL [] else p)

/-- Array `addMany`: append all items when the payload is an array, no-op
otherwise. -/
def arrayAddMany (s p : JsVal) : Except Unit JsVal :=
  match s with
  | .arr xs =>
      match p with
      | .arr items => .ok (.arrL (xs.toList ++ items.toList))
      | _ => .ok s
  | _ => .error ()

/-- Array `removeMany`: if the first item of the (coerced) payload array
looks like an identifier-bearing object, drop elements whose
string-normalized `id` is in the payload id set; else drop elements equal to
any payload value. -/
def arrayRemoveMany (s p : JsVal) : Except Unit JsVal :=
  match s with
  | .arr xs =>
      let items := payloadItems p
      if removeManyIsIds items then do
        let idSet ← items.mapM (fun x => do pure (toId (← idOfEx x)))
        let r ← filterIdNotIn xs.toList idSet
        pure (.arrL r)
      else .ok (.arrL (xs.toList.filter (fun x => !(items.contains x))))
  | _ => .error ()

/-- One step of array `upsert`: find the first element whose `id` strictly
equals `entity?.id`; replace it in place, else append. -/
def arrayUpsertStep (cur : List JsVal) (entity : JsVal) : Except Unit (List JsVal) := do
  let idx ← findIdxById cur (optChainId entity)
  match idx with
  | some i => pure (cur.set i entity)
  | none => pure (cur ++ [entity])

/-- Array `upsert`: apply the upsert step for each payload item in order. -/
def arrayUpsert (s p : JsVal) : Except Unit JsVal :=
  match s with
  | .arr xs => do
      let r ← (payloadItems p).foldlM arrayUpsertStep xs.toList
      pure (.arrL r)
  | _ => .error ()

/-- Dispatch from an accepted array-adapter name to its reducer. -/
def arrayReducerOf : ArrayOp → JsVal → JsVal → Except Unit JsVal
  | .add => arrayAdd
  | .remove => arrayRemove
  | .clear => arrayClear
  | .update => arrayUpdate
  | .set => arraySet
  | .addMany => arrayAddMany
  | .removeMany => arrayRemoveMany
  | .upsert => arrayUpsert

/-!
Normalized-index ("entity adapter") reducers, from `createEntityReducers`.
The state is `{entities: Record<string, T>, ids: string[]}` and all reducers
address it through its `entities` and `ids` properties.
-/

/-- The names accepted by the entity adapter (`ENTITY_REDUCERS`). -/
inductive EntityOp where
  | add | remove | update | clear | set | addMany | removeMany | upsert
  | increment | toggle
deriving DecidableEq, Repr

/-- `ENTITY_REDUCERS.includes(name)`, as the partial parse used by
`createEntityReducers` to skip unknown names. -/
def toEntityOp : String → Option EntityOp
  | "add" => some .add
  | "remove" => some .remove
  | "update" => some .update
  | "clear" => some .clear
  | "set" => some .set
  | "addMany" => some .addMany
  | "removeMany" => some .removeMany
  | "upsert" => some .upsert
  | "increment" => some .increment
  | "toggle" => some .toggle
  | _ => none

/-- `isEntityReducer` from the source. -/
def isEntityReducer (name : String) : Bool := (toEntityOp name).isSome

/-- The canonical empty entity state `{entities: {}, ids: []}`. -/
def emptyEntityState : JsVal := .objL [("entities", .objL []), ("ids", .arrL [])]

/-- `getEmptyEntityState` from the source: returns `{entities: {}, ids: []}`. -/
def getEmptyEntityState : JsVal := .objL [("entities", .objL []), ("ids", .arrL [])]

/-- The body of the entity `add` loop for one entity:
`const id = toId(entity.id); state.entities[id] = entity;
if (!state.ids.includes(id)) state.ids.push(id);`. -/
def entityAddStep (st entity : JsVal) : Except Unit JsVal := do
  let idv ← getMemberEx entity "id"
  let id := toId idv
  let ents ← getMemberEx st "entities"
  let ents1 ← setMemberEx ents id entity
  let st1 ← setMemberEx st "entities" ents1
  let idsv ← getMemberEx st1 "ids"
  match idsv with
  | .arr l =>
      if l.toList.contains (.str id) then pure st1
      else setMemberEx st1 "ids" (.arrL (l.toList ++ [.str id]))
  | _ => .error ()

/-- Entity `add`: upsert each payload entity (single entity or array) by its
string-normalized id. -/
def entityAdd (s p : JsVal) : Except Unit JsVal :=
  (payloadItems p).foldlM entityAddStep s

/-- Entity `remove`: delete each string-normalized payload id from the
mapping and filter it out of the id sequence. -/
def entityRemove (s p : JsVal) : Except Unit JsVal := do
  let idsToRemove := (payloadItems p).map toId
  let ents ← getMemberEx s "entities"
  let ents1 ← idsToRemove.foldlM jsDeleteEx ents
  let s1 ← setMemberEx s "entities" ents1
  let idsv ← getMemberEx s1 "ids"
  match idsv with
  | .arr l =>
      setMemberEx s1 "ids"
        (.arrL (l.toList.filter (fun x =>
          !(match x with | .str t => idsToRemove.contains t | _ => false))))
  | _ => .error ()

/-- Entity `update`: `const {id, changes} = action.payload` (throws on a
nullish payload), then shallow-merge `changes` onto the entity stored under
the string-normalized id when that entry is truthy, else no-op. -/
def entityUpdate (s p : JsVal) : Except Unit JsVal := do
  if p.isNullish then .error () else do
  let idv := getOwn p "id"
  let changes := getOwn p "changes"
  let keyId := toId idv
  let ents ← getMemberEx s "entities"
  let existing ← getMemberEx ents keyId
  if existing.truthy then do
    let ents1 ← setMemberEx ents keyId (jsMerge existing changes)
    setMemberEx s "entities" ents1
  else pure s

/-- Entity `clear`: `() => ({entities: {}, ids: []})`. -/
def entityClear (_s _p : JsVal) : Except Unit JsVal := .ok emptyEntityState

/-- Entity `set`: `action.payload ?? {entities: {}, ids: []}` (a non-nullish
payload is stored verbatim, whatever its shape). -/
def entitySet (_s p : JsVal) : Except Unit JsVal :=
  .ok (if p.isNullish then emptyEntityState else p)

/-- Entity `addMany`: `const items = payload ?? []; for (const entity of
items) {...add body...}` — iterating a non-array non-string payload throws. -/
def entityAddMany (s p : JsVal) : Except Unit JsVal := do
  let items ← if p.isNullish then pure [] else jsIterateEx p
  items.foldlM entityAddStep s

/-- Entity `removeMany`: the same body as entity `remove`. -/
def entityRemoveMany (s p : JsVal) : Except Unit JsVal := do
  let idsToRemove := (payloadItems p).map toId
  let ents ← getMemberEx s "entities"
  let ents1 ← idsToRemove.foldlM jsDeleteEx ents
  let s1 ← setMemberEx s "entities" ents1
  let idsv ← getMemberEx s1 "ids"
  match idsv with
  | .arr l =>
      setMemberEx s1 "ids"
        (.arrL (l.toList.filter (fun x =>
          !(match x with | .str t => idsToRemove.contains t | _ => false))))
  | _ => .error ()

/-- The body of the entity `upsert` loop for one entity (textually the same
code as the `add` case in the source). -/
def entityUpsertStep (st entity : JsVal) : Except Unit JsVal := do
  let idv ← getMemberEx entity "id"
  let id := toId idv
  let ents ← getMemberEx st "entities"
  let ents1 ← setMemberEx ents id entity
  let st1 ← setMemberEx st "entities" ents1
  let idsv ← getMemberEx st1 "ids"
  match idsv with
  | .arr l =>
      if l.toList.contains (.str id) then pure st1
      else setMemberEx st1 "ids" (.arrL (l.toList ++ [.str id]))
  | _ => .error ()

/-- Entity `upsert`: its case block in the source is identical to `add`. -/
def entityUpsert (s p : JsVal) : Except Unit JsVal :=
  (payloadItems p).foldlM entityUpsertStep s

/-- Entity `increment`: `const {id, field = "value", amount = 1} =
payload ?? {}`, then add `amount` to `entities[toId(id)][field]` when that
entry is truthy, has the field, and the field holds a number; else no-op.
The defaults apply exactly when the destructured property is `undefined`. -/
def entityIncrement (s p : JsVal) : Except Unit JsVal := do
  let dp := if p.isNullish then .objL [] else p
  let idv := getOwn dp "id"
  let fieldv := match getOwn dp "field" with | .undef => .str "value" | v => v
  let amountv := match getOwn dp "amount" with | .undef => .num 1 | v => v
  let keyId := toId idv
  let ents ← getMemberEx s "entities"
  let existing ← getMemberEx ents keyId
  if existing.truthy then do
    let fieldKey := toId fieldv
    let hasF ← hasPropEx existing fieldKey
    match (if hasF then getOwn existing fieldKey else .undef) with
    | .num n => do
        let existing1 ← setMemberEx existing fieldKey (jsAddNum n amountv)
        let ents1 ← setMemberEx ents keyId existing1
        setMemberEx s "entities" ents1
    | _ => pure s
  else pure s

/-- Entity `toggle`: `const {id, field = "value"} = payload ?? {}`, then
negate `entities[toId(id)][field]` when that entry is truthy, has the field,
and the field holds a boolean; else no-op. -/
def entityToggle (s p : JsVal) : Except Unit JsVal := do
  let dp := if p.isNullish then .objL [] else p
  let idv := getOwn dp "id"
  let fieldv := match getOwn dp "field" with | .undef => .str "value" | v => v
  let keyId := toId idv
  let ents ← getMemberEx s "entities"
  let existing ← getMemberEx ents keyId
  if existing.truthy then do
    let fieldKey := toId fieldv
    let hasF ← hasPropEx existing fieldKey
    match (if hasF then getOwn existing fieldKey else .undef) with
    | .bool b => do
        let existing1 ← setMemberEx existing fieldKey (.bool !b)
        let ents1 ← setMemberEx ents keyId existing1
        setMemberEx s "entities" ents1
    | _ => pure s
  else pure s

/-- Dispatch from an accepted entity-adapter name to its reducer. -/
def entityReducerOf : EntityOp → JsVal → JsVal → Except Unit JsVal
  | .add => entityAdd
  | .remove => entityRemove
  | .update => entityUpdate
  | .clear => entityClear
  | .set => entitySet
  | .addMany => entityAddMany
  | .removeMany => entityRemoveMany
  | .upsert => entityUpsert
  | .increment => entityIncrement
  | .toggle => entityToggle

/-!
Assembly: action naming and reducer-map construction (`capitalize`,
`actionKey`, `createArrayReducers`, `createEntityReducers`), and the async
lifecycle overlay (`DEFAULT_ASYNC_STATE`, `addAsyncExtraReducers`, the
async-array state wrapping and its selectors).
-/

/-- The naming mode, short or prefixed; an absent `actionNaming` behaves as short. -/
inductive ActionNaming where
  | short
  | prefixed
deriving DecidableEq, Repr

/-- `capitalize` from the source: upper-case the first character, keep the
rest untouched. -/
def capitalize (s : String) : String :=
  match s.toList with
  | [] => s
  | c :: rest => String.mk (c.toUpper :: rest)

/-- `actionKey` from the source: prefixed mode concatenates the slice name
with the capitalized reducer name; short mode is the bare reducer name. -/
def actionKey (name reducerName : String) (naming : ActionNaming) : String :=
  match naming with
  | .prefixed => name ++ capitalize reducerName
  | .short => reducerName

/-- `createArrayReducers`: walk the requested names in order, silently
skipping any name outside the array vocabulary, and produce the map from
action key to reducer. -/
def createArrayReducers (reducers : List String) (name : String)
    (naming : ActionNaming) : List (String × (JsVal → JsVal → Except Unit JsVal)) :=
  match reducers with
  | [] => []
  | r :: rest =>
      match toArrayOp r with
      | none => createArrayReducers rest name naming
      | some op => (actionKey name r naming, arrayReducerOf op) :: createArrayReducers rest name naming

/-- `createEntityReducers`: walk the requested names in order, silently
skipping any name outside the entity vocabulary, and produce the map from
action key to reducer. -/
def createEntityReducers (reducers : List String) (name : String)
    (naming : ActionNaming) : List (String × (JsVal → JsVal → Except Unit JsVal)) :=
  match reducers with
  | [] => []
  | r :: rest =>
      match toEntityOp r with
      | none => createEntityReducers rest name naming
      | some op => (actionKey name r naming, entityReducerOf op) :: createEntityReducers rest name naming

/-- `AsyncStatus`: the four phases of the lifecycle marker. -/
inductive AsyncStatus where
  | idle
  | pending
  | fulfilled
  | rejected
deriving DecidableEq, Repr

/-- The lifecycle fields injected into state when `asyncThunks` is present:
`loading`, `error` (a string or null, as `Option String`), `status`. -/
structure AsyncStateFields where
  loading : Bool
  error : Option String
  status : AsyncStatus
deriving DecidableEq, Repr

/-- `DEFAULT_ASYNC_STATE`: `{loading: false, error: null, status: "idle"}`. -/
def DEFAULT_ASYNC_STATE : AsyncStateFields :=
  { loading := false, error := none, status := .idle }

/-- A lifecycle notification delivered for one thunk: pending, fulfilled, or
rejected carrying the optional explicit rejection payload and the optional
`error.message` of the failure object. -/
inductive AsyncSignal where
  | pending
  | fulfilled
  | rejected (payload : Option String) (errMessage : Option String)
deriving DecidableEq, Repr

/-- The case reducer `addAsyncExtraReducers` registers for a thunk: the same
three handlers for every thunk (the thunk name does not influence the
behavior), each fully overwriting the three shared lifecycle fields. -/
def asyncCaseReducer (_thunkName : String) : AsyncSignal → AsyncStateFields → AsyncStateFields
  | .pending, _ => { loading := true, error := none, status := .pending }
  | .fulfilled, _ => { loading := false, error := none, status := .fulfilled }
  | .rejected payload errMessage, _ =>
      { loading := false
        error := some ((payload.orElse fun _ => errMessage).getD "Request failed")
        status := .rejected }

/-- `addAsyncExtraReducers`: register the lifecycle handler for every
configured thunk name. -/
def addAsyncExtraReducers (thunkNames : List String) :
    List (String × (AsyncSignal → AsyncStateFields → AsyncStateFields)) :=
  thunkNames.map (fun n => (n, asyncCaseReducer n))

/-- The array-adapter state once `asyncThunks` is configured:
`{data, loading, error, status}` with the element sequence under `data`. -/
structure AsyncArrayState where
  data : JsVal
  loading : Bool
  error : Option String
  status : AsyncStatus
deriving DecidableEq, Repr

/-- `asyncInitialState` for the array adapter:
`{data: initialState, ...DEFAULT_ASYNC_STATE}`. -/
def asyncArrayInitialState (initial : JsVal) : AsyncArrayState :=
  { data := initial
    loading := DEFAULT_ASYNC_STATE.loading
    error := DEFAULT_ASYNC_STATE.error
    status := DEFAULT_ASYNC_STATE.status }

/-- `wrappedReducers`: run the inner reducer against `state.data` and store
its result back into `data` (an in-place mutation of the draft and a returned
replacement state both amount to the effect of the reducer on `data`). -/
def wrapArrayReducer (reducer : JsVal → JsVal → Except Unit JsVal)
    (s : AsyncArrayState) (p : JsVal) : Except Unit AsyncArrayState :=
  (reducer s.data p).map (fun d => { s with data := d })

/-- `selectAll` of the async array slice: `state.data`. -/
def selectAllAsyncArray (s : AsyncArrayState) : JsVal := s.data

/-- `selectTotal` of the async array slice: `state.data.length`. -/
def selectTotalAsyncArray (s : AsyncArrayState) : Except Unit JsVal :=
  getMemberEx s.data "length"

/-- `selectAll` of the plain (non-async) array slice: the state itself. -/
def selectAllArray (s : JsVal) : JsVal := s

/-- `{...initialState, ...DEFAULT_ASYNC_STATE}` for the entity adapter: the
lifecycle fields are merged directly alongside the fields of the entity state. -/
def entityAsyncInitialState (initial : JsVal) : JsVal :=
  jsMerge initial (.objL
    [("loading", .bool DEFAULT_ASYNC_STATE.loading),
     ("error", match DEFAULT_ASYNC_STATE.error with | none => .null | some e => .str e),
     ("status", .str (match DEFAULT_ASYNC_STATE.status with
        | .idle => "idle" | .pending => "pending"
        | .fulfilled => "fulfilled" | .rejected => "rejected"))])

/-!
The well-formed normalized-index representation and its invariant.
-/

/-- The normalized-index representation `{entities, ids}` built from an
association list of string keys to stored values and a list of identifier
strings. -/
def entSt (es : List (String × JsVal)) (ids : List String) : JsVal :=
  .objL [("entities", .objL es), ("ids", .arrL (ids.map .str))]

/-- The keys of the entity mapping. -/
def entKeys (es : List (String × JsVal)) : List String := es.map Prod.fst

/-- The specification invariant of the normalized-index container: the
keys of the mapping are distinct (a JS object has distinct keys), the identifier
sequence contains no duplicates, and the members of the identifier sequence
are exactly the keys of the mapping. -/
def entInv (es : List (String × JsVal)) (ids : List String) : Prop :=
  (entKeys es).Nodup ∧ ids.Nodup ∧
    (∀ k ∈ ids, k ∈ entKeys es) ∧ (∀ k ∈ entKeys es, k ∈ ids)

instance (es : List (String × JsVal)) (ids : List String) :
    Decidable (entInv es ids) := by
  unfold entInv; infer_instance

/-!
Basic lemmas about the embedding.
-/

@[simp] theorem jsList_toList_ofList (l : List JsVal) : (JsList.ofList l).toList = l := by
  induction l with
  | nil => rfl
  | cons x tl ih => simp [JsList.ofList, JsList.toList, ih]

@[simp] theorem jsFields_toList_ofList (l : List (String × JsVal)) :
    (JsFields.ofList l).toList = l := by
  induction l with
  | nil => rfl
  | cons x tl ih => cases x; simp [JsFields.ofList, JsFields.toList, ih]

@[simp] theorem jsList_ofList_toList : ∀ j : JsList, JsList.ofList j.toList = j
  | .nil => rfl
  | .cons x tl => by simp [JsList.toList, JsList.ofList, jsList_ofList_toList tl]

@[simp] theorem jsFields_ofList_toList : ∀ j : JsFields, JsFields.ofList j.toList = j
  | .nil => rfl
  | .cons k v tl => by simp [JsFields.toList, JsFields.ofList, jsFields_ofList_toList tl]


@[simp] theorem except_bind_ok {α β : Type} (a : α) (f : α → Except Unit β) :
    (Except.ok a >>= f) = f a := rfl

@[simp] theorem except_bind_error {α β : Type} (f : α → Except Unit β) :
    ((Except.error () : Except Unit α) >>= f) = Except.error () := rfl

@[simp] theorem except_map_ok {α β : Type} (a : α) (f : α → β) :
    (Except.ok a : Except Unit α).map f = Except.ok (f a) := rfl

@[simp] theorem except_map_error {α β : Type} (f : α → β) :
    (Except.error () : Except Unit α).map f = Except.error () := rfl

@[simp] theorem except_pure_eq_ok {α : Type} (a : α) :
    (pure a : Except Unit α) = Except.ok a := rfl

@[simp] theorem lookupField_nil (k : String) : lookupField [] k = none := rfl

@[simp] theorem lookupField_cons (k0 : String) (v : JsVal)
    (rest : List (String × JsVal)) (k : String) :
    lookupField ((k0, v) :: rest) k = if k0 = k then some v else lookupField rest k := rfl

@[simp] theorem setField_nil (k : String) (v : JsVal) : setField [] k v = [(k, v)] := rfl

@[simp] theorem setField_cons (k0 : String) (v0 : JsVal)
    (rest : List (String × JsVal)) (k : String) (v : JsVal) :
    setField ((k0, v0) :: rest) k v =
      if k0 = k then (k0, v) :: rest else (k0, v0) :: setField rest k v := rfl

@[simp] theorem isNullish_obj (fs : JsFields) : (JsVal.obj fs).isNullish = false := rfl

@[simp] theorem isNullish_arr (xs : JsList) : (JsVal.arr xs).isNullish = false := rfl

@[simp] theorem isNullish_str (s : String) : (JsVal.str s).isNullish = false := rfl

@[simp] theorem isNullish_num (n : Int) : (JsVal.num n).isNullish = false := rfl

@[simp] theorem isNullish_bool (b : Bool) : (JsVal.bool b).isNullish = false := rfl

@[simp] theorem getOwn_objL (fs : List (String × JsVal)) (k : String) :
    getOwn (.objL fs) k = (lookupField fs k).getD .undef := by
  simp [getOwn, JsVal.objL]

@[simp] theorem getMemberEx_objL (fs : List (String × JsVal)) (k : String) :
    getMemberEx (.objL fs) k = .ok ((lookupField fs k).getD .undef) := by
  simp [getMemberEx, JsVal.objL, JsVal.isNullish, getOwn]

@[simp] theorem setMemberEx_objL (fs : List (String × JsVal)) (k : String) (v : JsVal) :
    setMemberEx (.objL fs) k v = .ok (.objL (setField fs k v)) := by
  simp [setMemberEx, JsVal.objL]

@[simp] theorem getMemberEx_arrL (l : List JsVal) (k : String) :
    getMemberEx (.arrL l) k = .ok (if k = "length" then .num l.length else .undef) := by
  simp [getMemberEx, JsVal.arrL, JsVal.isNullish, getOwn]

@[simp] theorem entKeys_nil : entKeys [] = [] := rfl

@[simp] theorem entKeys_cons (k0 : String) (v0 : JsVal) (rest : List (String × JsVal)) :
    entKeys ((k0, v0) :: rest) = k0 :: entKeys rest := rfl

theorem entKeys_append (a b : List (String × JsVal)) :
    entKeys (a ++ b) = entKeys a ++ entKeys b := by
  simp [entKeys]

theorem lookupField_isSome_iff (es : List (String × JsVal)) (k : String) :
    (lookupField es k).isSome ↔ k ∈ entKeys es := by
  induction es with
  | nil => simp
  | cons kv rest ih =>
      obtain ⟨k0, v⟩ := kv
      by_cases h : k0 = k
      · subst h; simp
      · simp [h, ih, Ne.symm h]

theorem lookupField_eq_none_iff (es : List (String × JsVal)) (k : String) :
    lookupField es k = none ↔ k ∉ entKeys es := by
  rw [← lookupField_isSome_iff, Option.isSome_iff_ne_none]; tauto

theorem entKeys_setField_of_mem (es : List (String × JsVal)) (k : String) (v : JsVal)
    (h : k ∈ entKeys es) : entKeys (setField es k v) = entKeys es := by
  induction es with
  | nil => simp at h
  | cons kv rest ih =>
      obtain ⟨k0, v0⟩ := kv
      by_cases hk : k0 = k
      · simp [hk]
      · simp [hk] at h ⊢
        rcases h with h | h
        · exact absurd h.symm hk
        · exact ih h

theorem entKeys_setField_of_not_mem (es : List (String × JsVal)) (k : String) (v : JsVal)
    (h : k ∉ entKeys es) : entKeys (setField es k v) = entKeys es ++ [k] := by
  induction es with
  | nil => simp
  | cons kv rest ih =>
      obtain ⟨k0, v0⟩ := kv
      simp at h
      by_cases hk : k0 = k
      · exact absurd hk.symm h.1
      · simp [hk]
        exact ih h.2

theorem entKeys_filter (es : List (String × JsVal)) (p : String → Bool) :
    entKeys (es.filter (fun kv => p kv.1)) = (entKeys es).filter p := by
  induction es with
  | nil => rfl
  | cons kv rest ih =>
      obtain ⟨k0, v0⟩ := kv
      by_cases h : p k0 <;> simp [h, List.filter_cons, ih]

theorem contains_map_str (ids : List String) (a : String) :
    ((ids.map JsVal.str).contains (JsVal.str a)) = ids.contains a := by
  induction ids with
  | nil => rfl
  | cons x rest ih => by_cases h : x = a <;> simp [h, List.contains_cons, ih]

@[simp] theorem getOwn_obj (fs : JsFields) (k : String) :
    getOwn (.obj fs) k = (lookupField fs.toList k).getD .undef := rfl

@[simp] theorem getOwn_arr (xs : JsList) (k : String) :
    getOwn (.arr xs) k = (if k = "length" then .num xs.toList.length else .undef) := rfl

@[simp] theorem getMemberEx_obj (fs : JsFields) (k : String) :
    getMemberEx (.obj fs) k = .ok ((lookupField fs.toList k).getD .undef) := rfl

@[simp] theorem getMemberEx_arr (xs : JsList) (k : String) :
    getMemberEx (.arr xs) k =
      .ok (if k = "length" then .num xs.toList.length else .undef) := rfl

@[simp] theorem setMemberEx_obj (fs : JsFields) (k : String) (v : JsVal) :
    setMemberEx (.obj fs) k v = .ok (.obj (JsFields.ofList (setField fs.toList k v))) := rfl

@[simp] theorem getMemberEx_entSt_entities (es : List (String × JsVal)) (ids : List String) :
    getMemberEx (entSt es ids) "entities" = .ok (.objL es) := by
  simp [entSt]

@[simp] theorem getMemberEx_entSt_ids (es : List (String × JsVal)) (ids : List String) :
    getMemberEx (entSt es ids) "ids" = .ok (.arrL (ids.map .str)) := by
  simp [entSt]

theorem entityAddStep_nullish (st entity : JsVal) (h : entity.isNullish) :
    entityAddStep st entity = .error () := by
  unfold entityAddStep
  simp [getMemberEx, h]

@[simp] theorem isNullish_objL (fs : List (String × JsVal)) :
    (JsVal.objL fs).isNullish = false := rfl

@[simp] theorem isNullish_arrL (xs : List JsVal) :
    (JsVal.arrL xs).isNullish = false := rfl

theorem getMemberEx_of_not_nullish (v : JsVal) (k : String) (h : v.isNullish = false) :
    getMemberEx v k = .ok (getOwn v k) := by
  simp [getMemberEx, h]

theorem entityAddStep_entSt (es : List (String × JsVal)) (ids : List String)
    (entity : JsVal) (h : entity.isNullish = false) :
    entityAddStep (entSt es ids) entity =
      .ok (entSt (setField es (toId (getOwn entity "id")) entity)
            (if ids.contains (toId (getOwn entity "id")) then ids
             else ids ++ [toId (getOwn entity "id")])) := by
  unfold entityAddStep
  rw [getMemberEx_of_not_nullish entity "id" h]
  by_cases hc : toId (getOwn entity "id") ∈ ids <;>
    simp [getMemberEx, setMemberEx, getOwn_objL, lookupField, entSt, JsVal.arrL, JsVal.objL,
      List.mem_map, hc]

theorem entInv_addStep (es : List (String × JsVal)) (ids : List String)
    (entity s1 : JsVal) (hInv : entInv es ids)
    (hok : entityAddStep (entSt es ids) entity = .ok s1) :
    ∃ es1 ids1, s1 = entSt es1 ids1 ∧ entInv es1 ids1 := by
  cases h : entity.isNullish with
  | true => rw [entityAddStep_nullish _ _ h] at hok; exact absurd hok (by simp)
  | false =>
      rw [entityAddStep_entSt es ids entity h] at hok
      obtain ⟨hKeys, hIds, hSub1, hSub2⟩ := hInv
      set id := toId (getOwn entity "id") with hid
      by_cases hc : id ∈ ids
      · refine ⟨setField es id entity, ids, ?_, ?_, hIds, ?_, ?_⟩
        · simpa [hc] using hok.symm
        · rw [entKeys_setField_of_mem es id entity (hSub1 id hc)]
          exact hKeys
        · intro k hk
          rw [entKeys_setField_of_mem es id entity (hSub1 id hc)]
          exact hSub1 k hk
        · intro k hk
          rw [entKeys_setField_of_mem es id entity (hSub1 id hc)] at hk
          exact hSub2 k hk
      · have hidnk : id ∉ entKeys es := fun hmem => hc (hSub2 id hmem)
        refine ⟨setField es id entity, ids ++ [id], ?_, ?_, ?_, ?_, ?_⟩
        · simpa [hc] using hok.symm
        · rw [entKeys_setField_of_not_mem es id entity hidnk]
          simp [List.nodup_append, hKeys, hidnk]
        · simp [List.nodup_append, hIds]
          exact hc
        · intro k hk
          rw [entKeys_setField_of_not_mem es id entity hidnk]
          simp at hk ⊢
          rcases hk with hk | hk
          · exact Or.inl (hSub1 k hk)
          · exact Or.inr hk
        · intro k hk
          rw [entKeys_setField_of_not_mem es id entity hidnk] at hk
          simp at hk ⊢
          rcases hk with hk | hk
          · exact Or.inl (hSub2 k hk)
          · exact Or.inr hk

theorem entInv_foldl_addStep :
    ∀ (items : List JsVal) (es : List (String × JsVal)) (ids : List String) (s1 : JsVal),
      entInv es ids →
      items.foldlM entityAddStep (entSt es ids) = .ok s1 →
      ∃ es1 ids1, s1 = entSt es1 ids1 ∧ entInv es1 ids1 := by
  intro items
  induction items with
  | nil =>
      intro es ids s1 hInv hok
      simp [List.foldlM] at hok
      exact ⟨es, ids, hok.symm, hInv⟩
  | cons x rest ih =>
      intro es ids s1 hInv hok
      rw [List.foldlM_cons] at hok
      cases hstep : entityAddStep (entSt es ids) x with
      | error e => rw [hstep] at hok; cases e; exact absurd hok (by simp)
      | ok st =>
          rw [hstep] at hok
          simp at hok
          obtain ⟨es2, ids2, rfl, hInv2⟩ := entInv_addStep es ids x st hInv hstep
          exact ih es2 ids2 s1 hInv2 hok

@[simp] theorem jsDeleteEx_obj (fs : JsFields) (k : String) :
    jsDeleteEx (.obj fs) k
      = .ok (.obj (JsFields.ofList (fs.toList.filter (fun kv => kv.1 ≠ k)))) := rfl

theorem foldlM_jsDelete_obj :
    ∀ (rem : List String) (es : List (String × JsVal)),
      rem.foldlM jsDeleteEx (JsVal.obj (JsFields.ofList es)) =
        .ok (.obj (JsFields.ofList (es.filter (fun kv => !rem.contains kv.1)))) := by
  intro rem
  induction rem with
  | nil => intro es; simp [List.foldlM]
  | cons k rest ih =>
      intro es
      rw [List.foldlM_cons, jsDeleteEx_obj]
      simp only [jsFields_toList_ofList, except_bind_ok, ih, List.filter_filter]
      have hfe : (fun (a : String × JsVal) => !rest.contains a.1 && decide (a.1 ≠ k))
          = (fun (kv : String × JsVal) => !(k :: rest).contains kv.1) := by
        funext a
        by_cases h1 : a.1 = k <;> by_cases h2 : a.1 ∈ rest <;>
          simp [h1, h2, List.contains_cons]
      rw [hfe]

theorem filter_map_str (ids : List String) (q : String → Bool) :
    ((ids.map JsVal.str).filter (fun x =>
        !(match x with | .str t => q t | _ => false)))
      = (ids.filter (fun t => !q t)).map .str := by
  induction ids with
  | nil => rfl
  | cons x rest ih =>
      by_cases h : q x <;> simp [List.filter_cons, h, ih]

@[simp] theorem setMemberEx_entSt_entities (es es2 : List (String × JsVal))
    (ids : List String) :
    setMemberEx (entSt es ids) "entities" (.obj (JsFields.ofList es2)) =
      .ok (entSt es2 ids) := by
  simp [entSt, JsVal.objL, setMemberEx]

@[simp] theorem setMemberEx_entSt_ids (es : List (String × JsVal))
    (ids ids2 : List String) :
    setMemberEx (entSt es ids) "ids" (.arr (JsList.ofList (ids2.map .str))) =
      .ok (entSt es ids2) := by
  simp [entSt, JsVal.objL, JsVal.arrL, setMemberEx]

theorem entityRemove_entSt (es : List (String × JsVal)) (ids : List String) (p : JsVal) :
    entityRemove (entSt es ids) p =
      .ok (entSt (es.filter (fun kv => !((payloadItems p).map toId).contains kv.1))
            (ids.filter (fun t => !((payloadItems p).map toId).contains t))) := by
  unfold entityRemove
  simp only [getMemberEx_entSt_entities, except_bind_ok, JsVal.objL]
  rw [foldlM_jsDelete_obj]
  simp only [except_bind_ok, setMemberEx_entSt_entities, getMemberEx_entSt_ids]
  simp only [JsVal.arrL, jsList_toList_ofList]
  rw [filter_map_str ids (fun t => ((payloadItems p).map toId).contains t)]
  exact setMemberEx_entSt_ids _ _ _

theorem entityIncrement_keys (es : List (String × JsVal)) (ids : List String)
    (p s1 : JsVal) (hok : entityIncrement (entSt es ids) p = .ok s1) :
    ∃ es1, s1 = entSt es1 ids ∧ entKeys es1 = entKeys es := by
  unfold entityIncrement at hok
  simp only [getMemberEx_entSt_entities, except_bind_ok, getMemberEx_obj,
    jsFields_toList_ofList] at hok
  set kid := toId (getOwn (if p.isNullish = true then JsVal.objL [] else p) "id") with hkid
  set fkey := toId (match getOwn (if p.isNullish = true then JsVal.objL [] else p) "field" with
    | JsVal.undef => JsVal.str "value" | v => v) with hfkey
  rcases hl : lookupField es kid with _ | v
  · rw [hl] at hok
    simp [JsVal.truthy] at hok
    exact ⟨es, hok.symm, rfl⟩
  · rw [hl] at hok
    simp only [Option.getD_some] at hok
    have hmem : kid ∈ entKeys es := by
      rw [← lookupField_isSome_iff, hl]; rfl
    by_cases ht : v.truthy
    · rw [if_pos (by simp [ht])] at hok
      cases v with
      | obj fs =>
          simp only [hasPropEx, except_bind_ok] at hok
          cases hv : (if hasPropB (.obj fs) fkey = true then getOwn (.obj fs) fkey
              else JsVal.undef) with
          | num n =>
              rw [hv] at hok
              simp only [setMemberEx_obj, except_bind_ok, jsFields_toList_ofList,
                setMemberEx_entSt_entities, Except.ok.injEq] at hok
              exact ⟨_, hok.symm, entKeys_setField_of_mem es _ _ hmem⟩
          | null =>
              rw [hv] at hok; simp at hok; exact ⟨es, hok.symm, rfl⟩
          | undef =>
              rw [hv] at hok; simp at hok; exact ⟨es, hok.symm, rfl⟩
          | bool b =>
              rw [hv] at hok; simp at hok; exact ⟨es, hok.symm, rfl⟩
          | str t =>
              rw [hv] at hok; simp at hok; exact ⟨es, hok.symm, rfl⟩
          | arr xs =>
              rw [hv] at hok; simp at hok; exact ⟨es, hok.symm, rfl⟩
          | obj gs =>
              rw [hv] at hok; simp at hok; exact ⟨es, hok.symm, rfl⟩
      | arr xs =>
          simp only [hasPropEx, except_bind_ok] at hok
          by_cases hlen : fkey = "length"
          · rw [hlen] at hok
            simp [hasPropB, setMemberEx] at hok
          · simp [hasPropB, hlen] at hok
            exact ⟨es, hok.symm, rfl⟩
      | null => simp [JsVal.truthy] at ht
      | undef => simp [JsVal.truthy] at ht
      | bool b => simp [hasPropEx] at hok
      | num n => simp [hasPropEx] at hok
      | str t => simp [hasPropEx] at hok
    · rw [if_neg (by simp [ht])] at hok
      simp at hok
      exact ⟨es, hok.symm, rfl⟩

theorem entityToggle_keys (es : List (String × JsVal)) (ids : List String)
    (p s1 : JsVal) (hok : entityToggle (entSt es ids) p = .ok s1) :
    ∃ es1, s1 = entSt es1 ids ∧ entKeys es1 = entKeys es := by
  unfold entityToggle at hok
  simp only [getMemberEx_entSt_entities, except_bind_ok, getMemberEx_obj,
    jsFields_toList_ofList] at hok
  set kid := toId (getOwn (if p.isNullish = true then JsVal.objL [] else p) "id") with hkid
  set fkey := toId (match getOwn (if p.isNullish = true then JsVal.objL [] else p) "field" with
    | JsVal.undef => JsVal.str "value" | v => v) with hfkey
  rcases hl : lookupField es kid with _ | v
  · rw [hl] at hok
    simp [JsVal.truthy] at hok
    exact ⟨es, hok.symm, rfl⟩
  · rw [hl] at hok
    simp only [Option.getD_some] at hok
    have hmem : kid ∈ entKeys es := by
      rw [← lookupField_isSome_iff, hl]; rfl
    by_cases ht : v.truthy
    · rw [if_pos (by simp [ht])] at hok
      cases v with
      | obj fs =>
          simp only [hasPropEx, except_bind_ok] at hok
          cases hv : (if hasPropB (.obj fs) fkey = true then getOwn (.obj fs) fkey
              else JsVal.undef) with
          | bool b =>
              rw [hv] at hok
              simp only [setMemberEx_obj, except_bind_ok, jsFields_toList_ofList,
                setMemberEx_entSt_entities, Except.ok.injEq] at hok
              exact ⟨_, hok.symm, entKeys_setField_of_mem es _ _ hmem⟩
          | null =>
              rw [hv] at hok; simp at hok; exact ⟨es, hok.symm, rfl⟩
          | undef =>
              rw [hv] at hok; simp at hok; exact ⟨es, hok.symm, rfl⟩
          | num n =>
              rw [hv] at hok; simp at hok; exact ⟨es, hok.symm, rfl⟩
          | str t =>
              rw [hv] at hok; simp at hok; exact ⟨es, hok.symm, rfl⟩
          | arr xs =>
              rw [hv] at hok; simp at hok; exact ⟨es, hok.symm, rfl⟩
          | obj gs =>
              rw [hv] at hok; simp at hok; exact ⟨es, hok.symm, rfl⟩
      | arr xs =>
          simp only [hasPropEx, except_bind_ok] at hok
          by_cases hlen : fkey = "length"
          · rw [hlen] at hok
            simp [hasPropB] at hok
            exact ⟨es, hok.symm, rfl⟩
          · simp [hasPropB, hlen] at hok
            exact ⟨es, hok.symm, rfl⟩
      | null => simp [JsVal.truthy] at ht
      | undef => simp [JsVal.truthy] at ht
      | bool b => simp [hasPropEx] at hok
      | num n => simp [hasPropEx] at hok
      | str t => simp [hasPropEx] at hok
    · rw [if_neg (by simp [ht])] at hok
      simp at hok
      exact ⟨es, hok.symm, rfl⟩

theorem entityUpdate_nullish (s p : JsVal) (h : p.isNullish = true) :
    entityUpdate s p = .error () := by
  unfold entityUpdate
  simp [h]

theorem entityUpdate_entSt (es : List (String × JsVal)) (ids : List String)
    (p : JsVal) (h : p.isNullish = false) :
    entityUpdate (entSt es ids) p =
      .ok (match lookupField es (toId (getOwn p "id")) with
        | some v =>
            if v.truthy then
              entSt (setField es (toId (getOwn p "id")) (jsMerge v (getOwn p "changes"))) ids
            else entSt es ids
        | none => entSt es ids) := by
  unfold entityUpdate
  simp only [h, Bool.false_eq_true, if_false, getMemberEx_entSt_entities, except_bind_ok,
    getMemberEx_obj, jsFields_toList_ofList]
  rcases hl : lookupField es (toId (getOwn p "id")) with _ | v
  · simp [JsVal.truthy]
  · simp only [Option.getD_some]
    by_cases ht : v.truthy
    · simp only [ht, if_true, setMemberEx_obj, except_bind_ok, jsFields_toList_ofList,
        setMemberEx_entSt_entities]
    · simp [ht]

theorem entityUpsertStep_eq_addStep : entityUpsertStep = entityAddStep := rfl

theorem entityRemoveMany_eq_remove : entityRemoveMany = entityRemove := rfl

theorem entInv_congr_keys (es es1 : List (String × JsVal)) (ids : List String)
    (h : entKeys es1 = entKeys es) (hInv : entInv es ids) : entInv es1 ids := by
  obtain ⟨h1, h2, h3, h4⟩ := hInv
  exact ⟨h ▸ h1, h2, fun k hk => h ▸ h3 k hk, fun k hk => h4 k (h ▸ hk)⟩

theorem entInv_filter (es : List (String × JsVal)) (ids : List String)
    (q : String → Bool) (hInv : entInv es ids) :
    entInv (es.filter (fun kv => q kv.1)) (ids.filter q) := by
  obtain ⟨h1, h2, h3, h4⟩ := hInv
  refine ⟨?_, h2.filter q, ?_, ?_⟩
  · rw [entKeys_filter]; exact h1.filter q
  · intro k hk
    rw [entKeys_filter]
    rw [List.mem_filter] at hk
    rw [List.mem_filter]
    exact ⟨h3 k hk.1, hk.2⟩
  · intro k hk
    rw [entKeys_filter] at hk
    rw [List.mem_filter] at hk
    rw [List.mem_filter]
    exact ⟨h4 k hk.1, hk.2⟩

theorem emptyEntityState_eq_entSt : emptyEntityState = entSt [] [] := rfl

/-- C2 (amended form): every normalized-index vocabulary transition other
than `set` preserves the invariant (ids without duplicates, ids exactly the
mapping keys) for every payload; `set` preserves it exactly when its payload
is nullish or itself a well-formed state satisfying the invariant. -/
theorem claim2_entity_invariant (op : EntityOp) (es : List (String × JsVal))
    (ids : List String) (p s1 : JsVal) (hInv : entInv es ids)
    (hset : op = .set →
      p.isNullish = true ∨ ∃ es2 ids2, p = entSt es2 ids2 ∧ entInv es2 ids2)
    (hok : entityReducerOf op (entSt es ids) p = .ok s1) :
    ∃ es1 ids1, s1 = entSt es1 ids1 ∧ entInv es1 ids1 := by
  cases op with
  | add =>
      exact entInv_foldl_addStep (payloadItems p) es ids s1 hInv hok
  | upsert =>
      simp only [entityReducerOf] at hok
      unfold entityUpsert at hok
      rw [entityUpsertStep_eq_addStep] at hok
      exact entInv_foldl_addStep (payloadItems p) es ids s1 hInv hok
  | remove =>
      simp only [entityReducerOf] at hok
      rw [entityRemove_entSt] at hok
      simp only [Except.ok.injEq] at hok
      exact ⟨_, _, hok.symm,
        entInv_filter es ids (fun t => !((payloadItems p).map toId).contains t) hInv⟩
  | removeMany =>
      simp only [entityReducerOf] at hok
      rw [entityRemoveMany_eq_remove, entityRemove_entSt] at hok
      simp only [Except.ok.injEq] at hok
      exact ⟨_, _, hok.symm,
        entInv_filter es ids (fun t => !((payloadItems p).map toId).contains t) hInv⟩
  | update =>
      simp only [entityReducerOf] at hok
      cases hn : p.isNullish with
      | true => rw [entityUpdate_nullish _ _ hn] at hok; exact absurd hok (by simp)
      | false =>
          rw [entityUpdate_entSt es ids p hn] at hok
          simp only [Except.ok.injEq] at hok
          rcases hl : lookupField es (toId (getOwn p "id")) with _ | v
          · rw [hl] at hok
            exact ⟨es, ids, hok.symm, hInv⟩
          · rw [hl] at hok
            by_cases ht : v.truthy
            · simp only [ht, if_true] at hok
              have hmem : toId (getOwn p "id") ∈ entKeys es := by
                rw [← lookupField_isSome_iff, hl]; rfl
              exact ⟨_, _, hok.symm,
                entInv_congr_keys es _ ids (entKeys_setField_of_mem es _ _ hmem) hInv⟩
            · simp only [ht, Bool.false_eq_true, if_false] at hok
              exact ⟨es, ids, hok.symm, hInv⟩
  | clear =>
      simp only [entityReducerOf, entityClear] at hok
      simp only [Except.ok.injEq] at hok
      exact ⟨[], [], by rw [← hok, emptyEntityState_eq_entSt], by simp [entInv, entKeys]⟩
  | set =>
      simp only [entityReducerOf, entitySet] at hok
      rcases hset rfl with hn | ⟨es2, ids2, rfl, hInv2⟩
      · rw [hn] at hok
        simp only [if_true, Except.ok.injEq] at hok
        exact ⟨[], [], by rw [← hok, emptyEntityState_eq_entSt], by simp [entInv, entKeys]⟩
      · simp only [isNullish_objL, entSt, Bool.false_eq_true, if_false, Except.ok.injEq] at hok
        exact ⟨es2, ids2, by rw [← hok]; rfl, hInv2⟩
  | addMany =>
      simp only [entityReducerOf] at hok
      unfold entityAddMany at hok
      cases hn : p.isNullish with
      | true =>
          rw [hn] at hok
          simp only [if_true, except_pure_eq_ok, except_bind_ok] at hok
          exact entInv_foldl_addStep [] es ids s1 hInv hok
      | false =>
          rw [hn] at hok
          simp only [Bool.false_eq_true, if_false] at hok
          cases hit : jsIterateEx p with
          | error e => rw [hit] at hok; cases e; exact absurd hok (by simp)
          | ok items =>
              rw [hit] at hok
              simp only [except_bind_ok] at hok
              exact entInv_foldl_addStep items es ids s1 hInv hok
  | increment =>
      simp only [entityReducerOf] at hok
      obtain ⟨es1, rfl, hkeys⟩ := entityIncrement_keys es ids p s1 hok
      exact ⟨es1, ids, rfl, entInv_congr_keys es es1 ids hkeys hInv⟩
  | toggle =>
      simp only [entityReducerOf] at hok
      obtain ⟨es1, rfl, hkeys⟩ := entityToggle_keys es ids p s1 hok
      exact ⟨es1, ids, rfl, entInv_congr_keys es es1 ids hkeys hInv⟩

/-- C2, counterexample to the claim as stated: from the well-formed empty
normalized-index state, the vocabulary transition `set` with the payload
`{entities: {}, ids: ["a", "a"]}` succeeds and produces a state whose id
sequence has a duplicate and is not matched by the mapping keys. -/
theorem claim2_counterexample :
    entInv [] [] ∧
    entityReducerOf .set (entSt [] []) (entSt [] ["a", "a"]) =
      .ok (entSt [] ["a", "a"]) ∧
    ¬ entInv [] ["a", "a"] := by
  refine ⟨by decide, rfl, by decide⟩

/-- Witness for the amended C2 at a concrete input: `add` of `{id: "a"}` from
the empty state. -/
theorem claim2_witness :
    ∃ es1 ids1,
      entSt [("a", JsVal.objL [("id", JsVal.str "a")])] ["a"] = entSt es1 ids1 ∧
      entInv es1 ids1 :=
  claim2_entity_invariant .add [] [] (.objL [("id", .str "a")])
    (entSt [("a", JsVal.objL [("id", JsVal.str "a")])] ["a"])
    (by decide) (by intro h; cases h) rfl

/-- C5: the transition built for the normalized-index `upsert` is
extensionally equal to the transition built for `add`: identical results for
every state and payload (single entity or sequence). -/
theorem claim5_upsert_is_add (s p : JsVal) :
    entityReducerOf .upsert s p = entityReducerOf .add s p := rfl

/-- C4: the initial augmented state has loading false, error null, status
idle (for both the array-adapter wrapping and the entity-adapter merge);
started sets loading/error/status to true/null/pending, succeeded to
false/null/fulfilled, and failed to false/rejected with the error following
the precedence payload, then failure message, then "Request failed" — with
the same handler registered for every thunk, each notification fully
overwriting the shared fields (so the last notification wins). -/
theorem claim4_async_lifecycle :
    DEFAULT_ASYNC_STATE.loading = false ∧ DEFAULT_ASYNC_STATE.error = none ∧
    DEFAULT_ASYNC_STATE.status = .idle ∧
    (∀ init : JsVal, (asyncArrayInitialState init).loading = false ∧
      (asyncArrayInitialState init).error = none ∧
      (asyncArrayInitialState init).status = .idle ∧
      (asyncArrayInitialState init).data = init) ∧
    (∀ es ids, getOwn (entityAsyncInitialState (entSt es ids)) "loading" = .bool false ∧
      getOwn (entityAsyncInitialState (entSt es ids)) "error" = .null ∧
      getOwn (entityAsyncInitialState (entSt es ids)) "status" = .str "idle") ∧
    (∀ n f, asyncCaseReducer n .pending f =
      { loading := true, error := none, status := .pending }) ∧
    (∀ n f, asyncCaseReducer n .fulfilled f =
      { loading := false, error := none, status := .fulfilled }) ∧
    (∀ n f x m, asyncCaseReducer n (.rejected (some x) m) f =
      { loading := false, error := some x, status := .rejected }) ∧
    (∀ n f m, asyncCaseReducer n (.rejected none (some m)) f =
      { loading := false, error := some m, status := .rejected }) ∧
    (∀ n f, asyncCaseReducer n (.rejected none none) f =
      { loading := false, error := some "Request failed", status := .rejected }) ∧
    (∀ n n2, asyncCaseReducer n = asyncCaseReducer n2) ∧
    (∀ n sig f g, asyncCaseReducer n sig f = asyncCaseReducer n sig g) ∧
    (∀ names, addAsyncExtraReducers names = names.map (fun n => (n, asyncCaseReducer n))) := by
  refine ⟨rfl, rfl, rfl, fun init => ⟨rfl, rfl, rfl, rfl⟩, fun es ids => ⟨?_, ?_, ?_⟩,
    fun n f => rfl, fun n f => rfl, fun n f x m => rfl, fun n f m => rfl, fun n f => rfl,
    fun n n2 => rfl, fun n sig f g => by cases sig <;> rfl, fun names => rfl⟩ <;>
  simp [entityAsyncInitialState, jsMerge, spreadFields, entSt, DEFAULT_ASYNC_STATE]

/-- C10: requested operation names outside the vocabulary of the chosen kind
are dropped without error — the produced reducer map equals the one produced
from the recognized names alone (so recognized names in the same request are
unaffected), and a request containing "bogus" yields no entry for it under
either naming mode. -/
theorem claim10_unknown_names_dropped :
    (∀ rs name naming, createArrayReducers rs name naming =
        createArrayReducers (rs.filter isArrayReducer) name naming) ∧
    (∀ rs name naming, createEntityReducers rs name naming =
        createEntityReducers (rs.filter isEntityReducer) name naming) ∧
    (∀ name naming, (createArrayReducers ["add", "bogus", "clear"] name naming).map Prod.fst =
        [actionKey name "add" naming, actionKey name "clear" naming]) ∧
    (∀ name naming, (createEntityReducers ["bogus", "increment"] name naming).map Prod.fst =
        [actionKey name "increment" naming]) ∧
    (∀ name, (createArrayReducers ["bogus"] name .short) = [] ∧
             (createArrayReducers ["bogus"] name .prefixed) = []) := by
  refine ⟨?_, ?_, fun name naming => rfl, fun name naming => rfl, fun name => ⟨rfl, rfl⟩⟩
  · intro rs name naming
    induction rs with
    | nil => rfl
    | cons r rest ih =>
        cases h : toArrayOp r with
        | none =>
            have hb : isArrayReducer r = false := by simp [isArrayReducer, h]
            simp [createArrayReducers, h, List.filter_cons, hb, ih]
        | some op =>
            have hb : isArrayReducer r = true := by simp [isArrayReducer, h]
            simp [createArrayReducers, h, List.filter_cons, hb, ih]
  · intro rs name naming
    induction rs with
    | nil => rfl
    | cons r rest ih =>
        cases h : toEntityOp r with
        | none =>
            have hb : isEntityReducer r = false := by simp [isEntityReducer, h]
            simp [createEntityReducers, h, List.filter_cons, hb, ih]
        | some op =>
            have hb : isEntityReducer r = true := by simp [isEntityReducer, h]
            simp [createEntityReducers, h, List.filter_cons, hb, ih]

theorem filterIdNe_ok (xs : List JsVal) (pid : JsVal)
    (h : ∀ x ∈ xs, x.isNullish = false) :
    filterIdNe xs pid = .ok (xs.filter (fun x => getOwn x "id" ≠ pid)) := by
  induction xs with
  | nil => rfl
  | cons x rest ih =>
      unfold filterIdNe
      have hx : idOfEx x = .ok (getOwn x "id") :=
        getMemberEx_of_not_nullish x "id" (h x (by simp))
      rw [hx]
      rw [except_bind_ok, ih (fun y hy => h y (by simp [hy]))]
      simp only [except_bind_ok, except_pure_eq_ok, List.filter_cons]
      by_cases he : getOwn x "id" = pid <;> simp [he]

theorem findIdxById_ok (xs : List JsVal) (pid : JsVal)
    (h : ∀ x ∈ xs, x.isNullish = false) :
    findIdxById xs pid = .ok (xs.findIdx? (fun x => getOwn x "id" == pid)) := by
  induction xs with
  | nil => rfl
  | cons x rest ih =>
      unfold findIdxById
      have hx : idOfEx x = .ok (getOwn x "id") :=
        getMemberEx_of_not_nullish x "id" (h x (by simp))
      rw [hx]
      by_cases he : getOwn x "id" = pid
      · simp [he, List.findIdx?_cons]
      · rw [except_bind_ok, if_neg he, ih (fun y hy => h y (by simp [hy]))]
        simp [he, List.findIdx?_cons]

theorem mapM_toId_ok (items : List JsVal)
    (h : ∀ y ∈ items, y.isNullish = false) :
    items.mapM (fun x => do pure (toId (← idOfEx x))) =
      .ok (items.map (fun x => toId (getOwn x "id"))) := by
  induction items with
  | nil => rfl
  | cons x rest ih =>
      rw [List.mapM_cons]
      have hx : idOfEx x = .ok (getOwn x "id") :=
        getMemberEx_of_not_nullish x "id" (h x (by simp))
      rw [hx]
      have ih2 := ih (fun y hy => h y (by simp [hy]))
      simp only [except_pure_eq_ok] at ih2 ⊢
      rw [except_bind_ok, ih2, except_bind_ok]
      rfl

theorem filterIdNotIn_ok (xs : List JsVal) (ids : List String)
    (h : ∀ x ∈ xs, x.isNullish = false) :
    filterIdNotIn xs ids = .ok (xs.filter (fun x => !ids.contains (toId (getOwn x "id")))) := by
  induction xs with
  | nil => rfl
  | cons x rest ih =>
      unfold filterIdNotIn
      have hx : idOfEx x = .ok (getOwn x "id") :=
        getMemberEx_of_not_nullish x "id" (h x (by simp))
      rw [hx]
      rw [except_bind_ok, ih (fun y hy => h y (by simp [hy]))]
      simp only [except_bind_ok, except_pure_eq_ok, List.filter_cons]
      by_cases he : ids.contains (toId (getOwn x "id")) <;> simp [he]

/-- C3, counterexample to the claim as stated: on the state `[null]`, an
id-bearing `remove` payload makes the reducer read `null.id` and throw, so
the transition does not return a filtered state for every state. -/
theorem claim3_counterexample :
    arrayRemove (.arrL [.null]) (.objL [("id", .num 1)]) = .error () := rfl

/-- C3 (amended): collection `remove` with an id-bearing payload removes
exactly the elements whose `id` strictly equals the id of the payload, preserving
the order of the rest, provided every element is non-nullish (a nullish
element makes the id read throw); with any other payload it removes exactly
the elements strictly equal to the payload, for every state. -/
theorem claim3_remove_semantics (xs : List JsVal) (p : JsVal) :
    (isIdBearing p = true → (∀ x ∈ xs, x.isNullish = false) →
      arrayRemove (.arrL xs) p =
        .ok (.arrL (xs.filter (fun x => getOwn x "id" ≠ getOwn p "id")))) ∧
    (isIdBearing p = false →
      arrayRemove (.arrL xs) p = .ok (.arrL (xs.filter (fun x => x ≠ p)))) := by
  constructor
  · intro hb hnn
    simp only [arrayRemove, jsList_toList_ofList, hb, if_true]
    rw [filterIdNe_ok xs (getOwn p "id") hnn]
    rfl
  · intro hb
    simp only [arrayRemove, jsList_toList_ofList, hb, Bool.false_eq_true, if_false]

/-- Witness for the amended C3 at concrete inputs: an id-bearing removal on a
two-element state and a plain value removal. -/
theorem claim3_witness :
    arrayRemove (.arrL [JsVal.objL [("id", JsVal.num 1), ("v", JsVal.num 2)], JsVal.num 5])
        (.objL [("id", JsVal.num 1)]) =
      .ok (.arrL ([JsVal.objL [("id", JsVal.num 1), ("v", JsVal.num 2)], JsVal.num 5].filter
        (fun x => getOwn x "id" ≠ getOwn (JsVal.objL [("id", JsVal.num 1)]) "id"))) ∧
    arrayRemove (.arrL [JsVal.num 5, JsVal.num 7]) (JsVal.num 5) =
      .ok (.arrL ([JsVal.num 5, JsVal.num 7].filter (fun x => x ≠ JsVal.num 5))) :=
  ⟨(claim3_remove_semantics _ _).1 rfl (by decide),
   (claim3_remove_semantics _ _).2 rfl⟩

/-- C6, counterexample to the claim as stated: on the state `[null]`, an
`{id, changes}` update payload makes the reducer read `null.id` while
scanning for the first match and throw, instead of leaving the state
unchanged. -/
theorem claim6_counterexample :
    arrayUpdate (.arrL [.null]) (.objL [("id", .num 1), ("changes", .objL [])]) =
      .error () := rfl

/-- C6 (amended): collection `update` with `{at, value}` replaces the element
at `at` when `0 ≤ at < length` and is a no-op otherwise; with `{id, changes}`
— on states whose elements are non-nullish (a nullish element before the
first match makes the id read throw) — it shallow-merges `changes` onto the
first element whose `id` strictly equals the payload id, and is a no-op when
there is no match or the matched element is not object-typed; other elements
and their order are unchanged. -/
theorem claim6_update_semantics :
    (∀ (xs : List JsVal) (a : Int) (v : JsVal), 0 ≤ a → a < (xs.length : Int) →
      arrayUpdate (.arrL xs) (.objL [("at", .num a), ("value", v)]) =
        .ok (.arrL (xs.set a.toNat v))) ∧
    (∀ (xs : List JsVal) (a : Int) (v : JsVal), ¬(0 ≤ a ∧ a < (xs.length : Int)) →
      arrayUpdate (.arrL xs) (.objL [("at", .num a), ("value", v)]) = .ok (.arrL xs)) ∧
    (∀ (xs : List JsVal) (idv ch : JsVal), (∀ x ∈ xs, x.isNullish = false) →
      arrayUpdate (.arrL xs) (.objL [("id", idv), ("changes", ch)]) =
        .ok (match xs.findIdx? (fun x => getOwn x "id" == idv) with
          | none => .arrL xs
          | some i =>
              if (xs.getD i .undef ≠ JsVal.null) ∧ (xs.getD i .undef).typeofObject = true then
                .arrL (xs.set i (jsMerge (xs.getD i .undef) ch))
              else .arrL xs)) := by
  refine ⟨?_, ?_, ?_⟩
  · intro xs a v h0 hlt
    simp [arrayUpdate, hasPropB, JsVal.typeofObject, h0, hlt]
  · intro xs a v hno
    simp [arrayUpdate, hasPropB, JsVal.typeofObject, hno]
  · intro xs idv ch hnn
    simp only [arrayUpdate, jsList_toList_ofList]
    simp
    rw [findIdxById_ok xs idv hnn]
    simp only [except_bind_ok]
    cases hf : List.findIdx? (fun x => getOwn x "id" == idv) xs with
    | none => simp [hf]
    | some i =>
        simp only [hf]
        cases he : xs[i]?.getD JsVal.undef <;>
          simp [he, JsVal.typeofObject, hasPropB, lookupField]

/-- Witness for the amended C6 at concrete inputs: an in-bounds index
replacement and an id-addressed merge. -/
theorem claim6_witness :
    arrayUpdate (.arrL [JsVal.num 1, JsVal.num 2])
        (.objL [("at", .num 0), ("value", JsVal.num 9)]) =
      .ok (.arrL ([JsVal.num 1, JsVal.num 2].set (Int.toNat 0) (JsVal.num 9))) ∧
    arrayUpdate (.arrL [JsVal.objL [("id", JsVal.num 1), ("a", JsVal.num 2)]])
        (.objL [("id", JsVal.num 1), ("changes", JsVal.objL [("a", JsVal.num 3)])]) =
      .ok (match [JsVal.objL [("id", JsVal.num 1), ("a", JsVal.num 2)]].findIdx?
            (fun x => getOwn x "id" == JsVal.num 1) with
        | none => .arrL [JsVal.objL [("id", JsVal.num 1), ("a", JsVal.num 2)]]
        | some i =>
            if (([JsVal.objL [("id", JsVal.num 1), ("a", JsVal.num 2)]].getD i .undef
                  ≠ JsVal.null) ∧
                ([JsVal.objL [("id", JsVal.num 1), ("a", JsVal.num 2)]].getD i
                  .undef).typeofObject = true) then
              .arrL ([JsVal.objL [("id", JsVal.num 1), ("a", JsVal.num 2)]].set i
                (jsMerge ([JsVal.objL [("id", JsVal.num 1), ("a", JsVal.num 2)]].getD i .undef)
                  (JsVal.objL [("a", JsVal.num 3)])))
            else .arrL [JsVal.objL [("id", JsVal.num 1), ("a", JsVal.num 2)]]) :=
  ⟨claim6_update_semantics.1 [JsVal.num 1, JsVal.num 2] 0 (JsVal.num 9)
      (by decide) (by decide),
   claim6_update_semantics.2.2 [JsVal.objL [("id", JsVal.num 1), ("a", JsVal.num 2)]]
      (JsVal.num 1) (JsVal.objL [("a", JsVal.num 3)]) (by decide)⟩

/-- C9 (implicit): identifier comparison is inconsistent across the
collection operations — `remove` with an id-bearing payload, `update` with
`{id, changes}`, and `upsert` compare ids strictly (no string
normalization), so an element with numeric id `n` is not matched by the
payload id `String(n)` and vice versa; `removeMany` with id-bearing objects
string-normalizes both sides, so numeric `n` and the string `String(n)` do
match there, in both directions. -/
theorem claim9_id_comparison_mismatch (n : Int) (rest : JsFields) :
    arrayRemove (.arrL [JsVal.obj (.cons "id" (.num n) rest)])
        (.objL [("id", .str (toString n))]) =
      .ok (.arrL [JsVal.obj (.cons "id" (.num n) rest)]) ∧
    arrayRemove (.arrL [JsVal.obj (.cons "id" (.str (toString n)) rest)])
        (.objL [("id", .num n)]) =
      .ok (.arrL [JsVal.obj (.cons "id" (.str (toString n)) rest)]) ∧
    arrayRemove (.arrL [JsVal.obj (.cons "id" (.num n) rest)])
        (.objL [("id", .num n)]) = .ok (.arrL []) ∧
    arrayUpdate (.arrL [JsVal.obj (.cons "id" (.num n) rest)])
        (.objL [("id", .str (toString n)), ("changes", .objL [("a", .num 1)])]) =
      .ok (.arrL [JsVal.obj (.cons "id" (.num n) rest)]) ∧
    arrayUpsert (.arrL [JsVal.obj (.cons "id" (.num n) rest)])
        (.objL [("id", .str (toString n))]) =
      .ok (.arrL [JsVal.obj (.cons "id" (.num n) rest),
        .objL [("id", .str (toString n))]]) ∧
    arrayRemoveMany (.arrL [JsVal.obj (.cons "id" (.num n) rest)])
        (.arrL [.objL [("id", .str (toString n))]]) = .ok (.arrL []) ∧
    arrayRemoveMany (.arrL [JsVal.obj (.cons "id" (.str (toString n)) rest)])
        (.arrL [.objL [("id", .num n)]]) = .ok (.arrL []) := by
  refine ⟨?_, ?_, ?_, ?_, ?_, ?_, ?_⟩
  · simp [arrayRemove, isIdBearing, JsVal.typeofObject, hasPropB, lookupField,
      filterIdNe, idOfEx, getMemberEx, JsVal.isNullish]
  · simp [arrayRemove, isIdBearing, JsVal.typeofObject, hasPropB, lookupField,
      filterIdNe, idOfEx, getMemberEx, JsVal.isNullish]
  · simp [arrayRemove, isIdBearing, JsVal.typeofObject, hasPropB, lookupField,
      filterIdNe, idOfEx, getMemberEx, JsVal.isNullish]
  · simp [arrayUpdate, hasPropB, lookupField, findIdxById, idOfEx, getMemberEx,
      JsVal.isNullish, JsVal.typeofObject]
  · simp [arrayUpsert, arrayUpsertStep, payloadItems, optChainId, findIdxById, idOfEx,
      getMemberEx, JsVal.isNullish, List.foldlM, JsFields.toList, lookupField]
  · simp [arrayRemoveMany, removeManyIsIds, payloadItems, JsVal.typeofObject, hasPropB,
      lookupField, filterIdNotIn, idOfEx, getMemberEx, JsVal.isNullish, toId, jsToString,
      List.mapM, List.mapM.loop, JsFields.toList]
  · simp [arrayRemoveMany, removeManyIsIds, payloadItems, JsVal.typeofObject, hasPropB,
      lookupField, filterIdNotIn, idOfEx, getMemberEx, JsVal.isNullish, toId, jsToString,
      List.mapM, List.mapM.loop, JsFields.toList]

theorem lookupField_mem (es : List (String × JsVal)) (k : String) (v : JsVal)
    (h : lookupField es k = some v) : (k, v) ∈ es := by
  induction es with
  | nil => simp at h
  | cons kv rest ih =>
      obtain ⟨k0, v0⟩ := kv
      by_cases hk : k0 = k
      · subst hk
        simp at h
        simp [h]
      · simp [hk] at h
        simp [ih h]

theorem entityIncrement_char (es : List (String × JsVal)) (ids : List String)
    (p : JsVal) (kid fkey : String) (amt : JsVal) (hp : p.isNullish = false)
    (hkid : toId (getOwn p "id") = kid)
    (hfkey : toId (match getOwn p "field" with | .undef => .str "value" | v => v) = fkey)
    (hamt : (match getOwn p "amount" with | .undef => .num 1 | v => v) = amt)
    (H : ∀ kv ∈ es, kv.2.truthy = true → ∃ fs, kv.2 = JsVal.obj fs) :
    entityIncrement (entSt es ids) p =
      .ok (match lookupField es kid with
        | some (.obj fs) =>
            (match (if (lookupField fs.toList fkey).isSome = true
                then getOwn (.obj fs) fkey else .undef) with
              | .num m =>
                  entSt (setField es kid
                    (.obj (JsFields.ofList (setField fs.toList fkey (jsAddNum m amt))))) ids
              | _ => entSt es ids)
        | some _ => entSt es ids
        | none => entSt es ids) := by
  unfold entityIncrement
  simp only [hp, Bool.false_eq_true, if_false, hkid, hfkey, hamt,
    getMemberEx_entSt_entities, except_bind_ok, getMemberEx_obj, jsFields_toList_ofList]
  rcases hl : lookupField es kid with _ | v
  · simp [JsVal.truthy]
  · simp only [Option.getD_some]
    by_cases ht : v.truthy
    · obtain ⟨fs, rfl⟩ := H (kid, v) (lookupField_mem es kid v hl) ht
      rw [if_pos (by simp [JsVal.truthy])]
      simp only [hasPropEx, hasPropB, except_bind_ok]
      cases hv : (if (lookupField fs.toList fkey).isSome = true
          then getOwn (.obj fs) fkey else .undef) with
      | num m =>
          simp only [hv, setMemberEx_obj, except_bind_ok, jsFields_toList_ofList,
            setMemberEx_entSt_entities]
      | null => simp only [hv]; rfl
      | undef => simp only [hv]; rfl
      | bool b => simp only [hv]; rfl
      | str t => simp only [hv]; rfl
      | arr xs => simp only [hv]; rfl
      | obj gs => simp only [hv]; rfl
    · rw [if_neg (by simp [ht])]
      cases v with
      | obj fs => simp [JsVal.truthy] at ht
      | arr xs => simp [JsVal.truthy] at ht
      | null => rfl
      | undef => rfl
      | bool b => rfl
      | num m => rfl
      | str t => rfl

theorem entityToggle_char (es : List (String × JsVal)) (ids : List String)
    (p : JsVal) (kid fkey : String) (hp : p.isNullish = false)
    (hkid : toId (getOwn p "id") = kid)
    (hfkey : toId (match getOwn p "field" with | .undef => .str "value" | v => v) = fkey)
    (H : ∀ kv ∈ es, kv.2.truthy = true → ∃ fs, kv.2 = JsVal.obj fs) :
    entityToggle (entSt es ids) p =
      .ok (match lookupField es kid with
        | some (.obj fs) =>
            (match (if (lookupField fs.toList fkey).isSome = true
                then getOwn (.obj fs) fkey else .undef) with
              | .bool b =>
                  entSt (setField es kid
                    (.obj (JsFields.ofList (setField fs.toList fkey (.bool !b))))) ids
              | _ => entSt es ids)
        | some _ => entSt es ids
        | none => entSt es ids) := by
  unfold entityToggle
  simp only [hp, Bool.false_eq_true, if_false, hkid, hfkey,
    getMemberEx_entSt_entities, except_bind_ok, getMemberEx_obj, jsFields_toList_ofList]
  rcases hl : lookupField es kid with _ | v
  · simp [JsVal.truthy]
  · simp only [Option.getD_some]
    by_cases ht : v.truthy
    · obtain ⟨fs, rfl⟩ := H (kid, v) (lookupField_mem es kid v hl) ht
      rw [if_pos (by simp [JsVal.truthy])]
      simp only [hasPropEx, hasPropB, except_bind_ok]
      cases hv : (if (lookupField fs.toList fkey).isSome = true
          then getOwn (.obj fs) fkey else .undef) with
      | bool b =>
          simp only [hv, setMemberEx_obj, except_bind_ok, jsFields_toList_ofList,
            setMemberEx_entSt_entities]
      | null => simp only [hv]; rfl
      | undef => simp only [hv]; rfl
      | num m => simp only [hv]; rfl
      | str t => simp only [hv]; rfl
      | arr xs => simp only [hv]; rfl
      | obj gs => simp only [hv]; rfl
    · rw [if_neg (by simp [ht])]
      cases v with
      | obj fs => simp [JsVal.truthy] at ht
      | arr xs => simp [JsVal.truthy] at ht
      | null => rfl
      | undef => rfl
      | bool b => rfl
      | num m => rfl
      | str t => rfl

/-- C7, counterexample to the claim as stated: when the entity stored under
the addressed id is a truthy primitive (here the number 5), `increment` does
not leave the state unchanged — the `field in existing` test throws. -/
theorem claim7_counterexample :
    entityReducerOf .increment (entSt [("x", JsVal.num 5)] ["x"])
        (.objL [("id", JsVal.str "x")]) = .error () := rfl

/-- C7 (amended): on states whose stored entity values are objects whenever
truthy (the code throws on a truthy primitive entity), `increment` with
`{id, field, amount}` — field defaulting to "value", amount to 1 — adds
amount to the named field exactly when an entity with the string-normalized
id exists and that field holds a number, else no-op; `toggle` negates the
named field (default "value") exactly when it holds a boolean, else no-op;
and the concrete example: increment by 5 on `{id: "1", value: 10}` yields
value 15, and applying it again yields 20 (not idempotent). -/
theorem claim7_increment_toggle (es : List (String × JsVal)) (ids : List String)
    (idv : JsVal) (f : String) (a : Int)
    (H : ∀ kv ∈ es, kv.2.truthy = true → ∃ fs, kv.2 = JsVal.obj fs) :
    (entityIncrement (entSt es ids) (.objL [("id", idv), ("field", .str f), ("amount", .num a)]) =
      .ok (match lookupField es (toId idv) with
        | some (.obj fs) =>
            (match (if (lookupField fs.toList f).isSome = true
                then getOwn (.obj fs) f else .undef) with
              | .num m =>
                  entSt (setField es (toId idv)
                    (.obj (JsFields.ofList (setField fs.toList f (.num (m + a)))))) ids
              | _ => entSt es ids)
        | some _ => entSt es ids
        | none => entSt es ids)) ∧
    (entityIncrement (entSt es ids) (.objL [("id", idv)]) =
      .ok (match lookupField es (toId idv) with
        | some (.obj fs) =>
            (match (if (lookupField fs.toList "value").isSome = true
                then getOwn (.obj fs) "value" else .undef) with
              | .num m =>
                  entSt (setField es (toId idv)
                    (.obj (JsFields.ofList (setField fs.toList "value" (.num (m + 1)))))) ids
              | _ => entSt es ids)
        | some _ => entSt es ids
        | none => entSt es ids)) ∧
    (entityToggle (entSt es ids) (.objL [("id", idv), ("field", .str f)]) =
      .ok (match lookupField es (toId idv) with
        | some (.obj fs) =>
            (match (if (lookupField fs.toList f).isSome = true
                then getOwn (.obj fs) f else .undef) with
              | .bool b =>
                  entSt (setField es (toId idv)
                    (.obj (JsFields.ofList (setField fs.toList f (.bool !b))))) ids
              | _ => entSt es ids)
        | some _ => entSt es ids
        | none => entSt es ids)) ∧
    (entityToggle (entSt es ids) (.objL [("id", idv)]) =
      .ok (match lookupField es (toId idv) with
        | some (.obj fs) =>
            (match (if (lookupField fs.toList "value").isSome = true
                then getOwn (.obj fs) "value" else .undef) with
              | .bool b =>
                  entSt (setField es (toId idv)
                    (.obj (JsFields.ofList (setField fs.toList "value" (.bool !b))))) ids
              | _ => entSt es ids)
        | some _ => entSt es ids
        | none => entSt es ids)) ∧
    (entityIncrement (entSt [("1", JsVal.objL [("id", JsVal.str "1"), ("value", JsVal.num 10)])] ["1"])
        (.objL [("id", JsVal.str "1"), ("field", JsVal.str "value"), ("amount", JsVal.num 5)]) =
      .ok (entSt [("1", JsVal.objL [("id", JsVal.str "1"), ("value", JsVal.num 15)])] ["1"]) ∧
     entityIncrement (entSt [("1", JsVal.objL [("id", JsVal.str "1"), ("value", JsVal.num 15)])] ["1"])
        (.objL [("id", JsVal.str "1"), ("field", JsVal.str "value"), ("amount", JsVal.num 5)]) =
      .ok (entSt [("1", JsVal.objL [("id", JsVal.str "1"), ("value", JsVal.num 20)])] ["1"])) := by
  refine ⟨?_, ?_, ?_, ?_, rfl, rfl⟩
  · rw [entityIncrement_char es ids
      (.objL [("id", idv), ("field", .str f), ("amount", .num a)]) (toId idv) f (.num a) rfl
      (by simp [lookupField]) (by simp [lookupField, toId, jsToString])
      (by simp [lookupField]) H]
    simp [jsAddNum]
  · rw [entityIncrement_char es ids (.objL [("id", idv)]) (toId idv) "value" (.num 1) rfl
      (by simp [lookupField]) (by simp [lookupField, toId, jsToString])
      (by simp [lookupField]) H]
    simp [jsAddNum]
  · rw [entityToggle_char es ids (.objL [("id", idv), ("field", .str f)]) (toId idv) f rfl
      (by simp [lookupField]) (by simp [lookupField, toId, jsToString]) H]
  · rw [entityToggle_char es ids (.objL [("id", idv)]) (toId idv) "value" rfl
      (by simp [lookupField]) (by simp [lookupField, toId, jsToString]) H]

/-- Witness for the amended C7 at a concrete input: increment by 5 on the
entity `{id: "1", value: 10}` stored under key "1". -/
theorem claim7_witness :
    entityIncrement (entSt [("1", JsVal.objL [("id", JsVal.str "1"), ("value", JsVal.num 10)])] ["1"])
        (.objL [("id", JsVal.str "1"), ("field", JsVal.str "value"), ("amount", JsVal.num 5)]) =
      .ok (match lookupField [("1", JsVal.objL [("id", JsVal.str "1"), ("value", JsVal.num 10)])]
            (toId (JsVal.str "1")) with
        | some (.obj fs) =>
            (match (if (lookupField fs.toList "value").isSome = true
                then getOwn (.obj fs) "value" else .undef) with
              | .num m =>
                  entSt (setField [("1", JsVal.objL [("id", JsVal.str "1"), ("value", JsVal.num 10)])]
                    (toId (JsVal.str "1"))
                    (.obj (JsFields.ofList (setField fs.toList "value" (.num (m + 5)))))) ["1"]
              | _ => entSt [("1", JsVal.objL [("id", JsVal.str "1"), ("value", JsVal.num 10)])] ["1"])
        | some _ => entSt [("1", JsVal.objL [("id", JsVal.str "1"), ("value", JsVal.num 10)])] ["1"]
        | none => entSt [("1", JsVal.objL [("id", JsVal.str "1"), ("value", JsVal.num 10)])] ["1"]) :=
  (claim7_increment_toggle [("1", JsVal.objL [("id", JsVal.str "1"), ("value", JsVal.num 10)])]
    ["1"] (JsVal.str "1") "value" 5
    (by intro kv hkv ht; simp at hkv; subst hkv; exact ⟨_, rfl⟩)).1

/-- C8: with async thunks configured, the array-adapter representation is
`{data, loading, error, status}` with the element sequence under `data`;
every wrapped synchronous transition (vocabulary or custom) reads and writes
only `data`, leaving `loading`, `error` and `status` unchanged; and the
read-all / read-count selectors read the nested `data` field. -/
theorem claim8_async_array_frame :
    (∀ init : JsVal, asyncArrayInitialState init =
      { data := init, loading := false, error := none, status := .idle }) ∧
    (∀ (r : JsVal → JsVal → Except Unit JsVal) (s : AsyncArrayState) (p : JsVal)
        (s1 : AsyncArrayState), wrapArrayReducer r s p = .ok s1 →
      s1.loading = s.loading ∧ s1.error = s.error ∧ s1.status = s.status ∧
      r s.data p = .ok s1.data) ∧
    (∀ s : AsyncArrayState, selectAllAsyncArray s = s.data) ∧
    (∀ (s : AsyncArrayState) (l : List JsVal), s.data = .arrL l →
      selectTotalAsyncArray s = .ok (.num l.length)) := by
  refine ⟨fun init => rfl, ?_, fun s => rfl, ?_⟩
  · intro r s p s1 hok
    unfold wrapArrayReducer at hok
    cases h : r s.data p with
    | error e => rw [h] at hok; cases e; exact absurd hok (by simp)
    | ok d =>
        rw [h] at hok
        simp only [except_map_ok, Except.ok.injEq] at hok
        subst hok
        exact ⟨rfl, rfl, rfl, rfl⟩
  · intro s l hd
    unfold selectTotalAsyncArray
    rw [hd]
    simp

/-- Witness for C8 at a concrete input: the wrapped `add` reducer on the
initial async array state. -/
theorem claim8_witness :
    (AsyncArrayState.mk (JsVal.arrL [JsVal.num 7]) false none AsyncStatus.idle).loading =
      (asyncArrayInitialState (JsVal.arrL [])).loading ∧
    (AsyncArrayState.mk (JsVal.arrL [JsVal.num 7]) false none AsyncStatus.idle).error =
      (asyncArrayInitialState (JsVal.arrL [])).error ∧
    (AsyncArrayState.mk (JsVal.arrL [JsVal.num 7]) false none AsyncStatus.idle).status =
      (asyncArrayInitialState (JsVal.arrL [])).status ∧
    arrayReducerOf .add (asyncArrayInitialState (JsVal.arrL [])).data (JsVal.num 7) =
      .ok (AsyncArrayState.mk (JsVal.arrL [JsVal.num 7]) false none AsyncStatus.idle).data :=
  claim8_async_array_frame.2.1 (arrayReducerOf .add)
    (asyncArrayInitialState (JsVal.arrL [])) (JsVal.num 7)
    (AsyncArrayState.mk (JsVal.arrL [JsVal.num 7]) false none AsyncStatus.idle) rfl

theorem mem_set_or {α : Type} (l : List α) (i : Nat) (b a : α)
    (h : a ∈ l.set i b) : a ∈ l ∨ a = b := by
  induction l generalizing i with
  | nil => simp at h
  | cons x xs ih =>
      cases i with
      | zero =>
          simp [List.set] at h
          rcases h with h | h
          · exact Or.inr h
          · exact Or.inl (by simp [h])
      | succ j =>
          simp [List.set] at h
          rcases h with h | h
          · exact Or.inl (by simp [h])
          · rcases ih j h with h2 | h2
            · exact Or.inl (by simp [h2])
            · exact Or.inr h2

theorem arrayUpdate_ok (xs : List JsVal) (p : JsVal)
    (hxs : ∀ x ∈ xs, x.isNullish = false) :
    ∃ s1, arrayUpdate (.arrL xs) p = .ok s1 := by
  unfold arrayUpdate
  simp only [jsList_toList_ofList]
  by_cases h1 : (decide (p ≠ JsVal.null) && p.typeofObject) = true
  · rw [if_pos h1]
    by_cases h2 : (hasPropB p "at" &&
        match getOwn p "at" with | JsVal.num _ => true | _ => false) = true
    · rw [if_pos h2]
      split
      · split
        · exact ⟨_, rfl⟩
        · exact ⟨_, rfl⟩
      · exact ⟨_, rfl⟩
    · rw [if_neg h2]
      by_cases h4 : (hasPropB p "id" && hasPropB p "changes") = true
      · rw [if_pos h4]
        rw [findIdxById_ok xs (getOwn p "id") hxs]
        simp only [except_bind_ok]
        split
        · split
          · exact ⟨_, rfl⟩
          · exact ⟨_, rfl⟩
        · exact ⟨_, rfl⟩
      · rw [if_neg h4]; exact ⟨_, rfl⟩
  · rw [if_neg h1]; exact ⟨_, rfl⟩

theorem foldl_upsertStep_ok :
    ∀ (items cur : List JsVal), (∀ x ∈ cur, x.isNullish = false) →
      (∀ y ∈ items, y.isNullish = false) →
      ∃ r, items.foldlM arrayUpsertStep cur = .ok r ∧ (∀ x ∈ r, x.isNullish = false) := by
  intro items
  induction items with
  | nil => intro cur hcur _; exact ⟨cur, by simp [List.foldlM], hcur⟩
  | cons y rest ih =>
      intro cur hcur hitems
      rw [List.foldlM_cons]
      unfold arrayUpsertStep
      rw [findIdxById_ok cur (optChainId y) hcur]
      simp only [except_bind_ok]
      cases List.findIdx? (fun x => getOwn x "id" == optChainId y) cur with
      | some i =>
          have hcur2 : ∀ x ∈ cur.set i y, x.isNullish = false := by
            intro x hx
            rcases mem_set_or cur i y x hx with h | h
            · exact hcur x h
            · rw [h]; exact hitems y (by simp)
          simpa using ih (cur.set i y) hcur2 (fun z hz => hitems z (by simp [hz]))
      | none =>
          have hcur2 : ∀ x ∈ cur ++ [y], x.isNullish = false := by
            intro x hx
            rcases List.mem_append.mp hx with h | h
            · exact hcur x h
            · simp at h; rw [h]; exact hitems y (by simp)
          simpa using ih (cur ++ [y]) hcur2 (fun z hz => hitems z (by simp [hz]))

theorem foldl_addStep_ok :
    ∀ (items : List JsVal) (es : List (String × JsVal)) (ids : List String),
      (∀ y ∈ items, y.isNullish = false) →
      ∃ s1, items.foldlM entityAddStep (entSt es ids) = .ok s1 := by
  intro items
  induction items with
  | nil => intro es ids _; exact ⟨entSt es ids, by simp [List.foldlM]⟩
  | cons y rest ih =>
      intro es ids hitems
      rw [List.foldlM_cons, entityAddStep_entSt es ids y (hitems y (by simp))]
      simp only [except_bind_ok]
      exact ih _ _ (fun z hz => hitems z (by simp [hz]))

theorem entityIncrement_ok (es : List (String × JsVal)) (ids : List String) (p : JsVal)
    (H : ∀ kv ∈ es, kv.2.truthy = true → ∃ fs, kv.2 = JsVal.obj fs) :
    ∃ s1, entityIncrement (entSt es ids) p = .ok s1 := by
  unfold entityIncrement
  simp only [getMemberEx_entSt_entities, except_bind_ok, getMemberEx_obj,
    jsFields_toList_ofList]
  set kid := toId (getOwn (if p.isNullish = true then JsVal.objL [] else p) "id") with hkid
  rcases hl : lookupField es kid with _ | v
  · refine ⟨entSt es ids, ?_⟩
    simp [JsVal.truthy]
  · simp only [Option.getD_some]
    by_cases ht : v.truthy
    · obtain ⟨fs, rfl⟩ := H (kid, v) (lookupField_mem es kid v hl) ht
      rw [if_pos (by simp [JsVal.truthy])]
      simp only [hasPropEx, except_bind_ok]
      split
      · simp only [setMemberEx_obj, except_bind_ok, jsFields_toList_ofList,
          setMemberEx_entSt_entities]
        exact ⟨_, rfl⟩
      · exact ⟨_, rfl⟩
    · rw [if_neg (by simp [ht])]
      exact ⟨_, rfl⟩

theorem entityToggle_ok (es : List (String × JsVal)) (ids : List String) (p : JsVal)
    (H : ∀ kv ∈ es, kv.2.truthy = true → ∃ fs, kv.2 = JsVal.obj fs) :
    ∃ s1, entityToggle (entSt es ids) p = .ok s1 := by
  unfold entityToggle
  simp only [getMemberEx_entSt_entities, except_bind_ok, getMemberEx_obj,
    jsFields_toList_ofList]
  set kid := toId (getOwn (if p.isNullish = true then JsVal.objL [] else p) "id") with hkid
  rcases hl : lookupField es kid with _ | v
  · refine ⟨entSt es ids, ?_⟩
    simp [JsVal.truthy]
  · simp only [Option.getD_some]
    by_cases ht : v.truthy
    · obtain ⟨fs, rfl⟩ := H (kid, v) (lookupField_mem es kid v hl) ht
      rw [if_pos (by simp [JsVal.truthy])]
      simp only [hasPropEx, except_bind_ok]
      split
      · simp only [setMemberEx_obj, except_bind_ok, jsFields_toList_ofList,
          setMemberEx_entSt_entities]
        exact ⟨_, rfl⟩
      · exact ⟨_, rfl⟩
    · rw [if_neg (by simp [ht])]
      exact ⟨_, rfl⟩

theorem entityIncrement_missing (es : List (String × JsVal)) (ids : List String)
    (idv : JsVal) (h : lookupField es (toId idv) = none) :
    entityIncrement (entSt es ids) (.objL [("id", idv)]) = .ok (entSt es ids) := by
  unfold entityIncrement
  simp only [isNullish_objL, Bool.false_eq_true, if_false, getMemberEx_entSt_entities,
    except_bind_ok, getMemberEx_obj, jsFields_toList_ofList]
  simp [lookupField, h, JsVal.truthy]

theorem entityToggle_missing (es : List (String × JsVal)) (ids : List String)
    (idv : JsVal) (h : lookupField es (toId idv) = none) :
    entityToggle (entSt es ids) (.objL [("id", idv)]) = .ok (entSt es ids) := by
  unfold entityToggle
  simp only [isNullish_objL, Bool.false_eq_true, if_false, getMemberEx_entSt_entities,
    except_bind_ok, getMemberEx_obj, jsFields_toList_ofList]
  simp [lookupField, h, JsVal.truthy]

/-- C1, counterexample to the claim as stated: the normalized-index `add`
transition applied to the well-formed empty state with payload `null` reads
`null.id` and throws instead of terminating with an unchanged state. -/
theorem claim1_counterexample :
    entityReducerOf .add (entSt [] []) .null = .error () := rfl

/-- C1 (amended): every vocabulary transition terminates without raising
provided nullish values stay out of the property reads the code performs:
for the collection kind it suffices that state elements and the payload
items are non-nullish (any payload shape otherwise); for the
normalized-index kind it suffices that add/upsert payload entities are
non-nullish, that an addMany payload is nullish, a sequence of non-nullish
entities, or a string, that an update payload is non-nullish, and that
increment/toggle address a mapping whose truthy values are objects.  The
indicated no-op cases hold: an out-of-bounds index update and a missing
identifier on update/increment/toggle leave the state unchanged. -/
theorem claim1_totality :
    (∀ (op : ArrayOp) (xs : List JsVal) (p : JsVal),
      (∀ x ∈ xs, x.isNullish = false) → (∀ y ∈ payloadItems p, y.isNullish = false) →
      ∃ s1, arrayReducerOf op (.arrL xs) p = .ok s1) ∧
    (∀ (op : EntityOp) (es : List (String × JsVal)) (ids : List String) (p : JsVal),
      ((op = .add ∨ op = .upsert) → ∀ y ∈ payloadItems p, y.isNullish = false) →
      (op = .addMany → p.isNullish = true ∨
        (∃ l, p = .arr l ∧ ∀ y ∈ l.toList, y.isNullish = false) ∨ (∃ t, p = .str t)) →
      (op = .update → p.isNullish = false) →
      ((op = .increment ∨ op = .toggle) →
        ∀ kv ∈ es, kv.2.truthy = true → ∃ fs, kv.2 = JsVal.obj fs) →
      ∃ s1, entityReducerOf op (entSt es ids) p = .ok s1) ∧
    (∀ (xs : List JsVal) (a : Int) (v : JsVal), ¬(0 ≤ a ∧ a < (xs.length : Int)) →
      arrayUpdate (.arrL xs) (.objL [("at", .num a), ("value", v)]) = .ok (.arrL xs)) ∧
    (∀ (es : List (String × JsVal)) (ids : List String) (idv ch : JsVal),
      lookupField es (toId idv) = none →
      entityUpdate (entSt es ids) (.objL [("id", idv), ("changes", ch)]) =
        .ok (entSt es ids)) ∧
    (∀ (es : List (String × JsVal)) (ids : List String) (idv : JsVal),
      lookupField es (toId idv) = none →
      entityIncrement (entSt es ids) (.objL [("id", idv)]) = .ok (entSt es ids)) ∧
    (∀ (es : List (String × JsVal)) (ids : List String) (idv : JsVal),
      lookupField es (toId idv) = none →
      entityToggle (entSt es ids) (.objL [("id", idv)]) = .ok (entSt es ids)) := by
  refine ⟨?_, ?_, ?_, ?_, entityIncrement_missing, entityToggle_missing⟩
  · intro op xs p hxs hpp
    cases op with
    | add => exact ⟨_, rfl⟩
    | clear => exact ⟨_, rfl⟩
    | set => exact ⟨_, rfl⟩
    | addMany => cases p <;> exact ⟨_, rfl⟩
    | remove =>
        simp only [arrayReducerOf]
        unfold arrayRemove
        simp only [jsList_toList_ofList]
        by_cases hb : isIdBearing p = true
        · rw [if_pos hb, filterIdNe_ok xs (getOwn p "id") hxs]
          exact ⟨_, rfl⟩
        · rw [if_neg hb]
          exact ⟨_, rfl⟩
    | update => exact arrayUpdate_ok xs p hxs
    | removeMany =>
        simp only [arrayReducerOf]
        unfold arrayRemoveMany
        simp only [jsList_toList_ofList]
        by_cases hb : removeManyIsIds (payloadItems p) = true
        · rw [if_pos hb, mapM_toId_ok (payloadItems p) hpp]
          simp only [except_bind_ok]
          rw [filterIdNotIn_ok xs _ hxs]
          exact ⟨_, rfl⟩
        · rw [if_neg hb]
          exact ⟨_, rfl⟩
    | upsert =>
        simp only [arrayReducerOf]
        unfold arrayUpsert
        simp only [jsList_toList_ofList]
        obtain ⟨r, hr, _⟩ := foldl_upsertStep_ok (payloadItems p) xs hxs hpp
        rw [hr]
        exact ⟨_, rfl⟩
  · intro op es ids p h1 h2 h3 h4
    cases op with
    | add => exact foldl_addStep_ok (payloadItems p) es ids (h1 (Or.inl rfl))
    | upsert =>
        simp only [entityReducerOf]
        unfold entityUpsert
        rw [entityUpsertStep_eq_addStep]
        exact foldl_addStep_ok (payloadItems p) es ids (h1 (Or.inr rfl))
    | remove => exact ⟨_, entityRemove_entSt es ids p⟩
    | removeMany =>
        simp only [entityReducerOf]
        rw [entityRemoveMany_eq_remove]
        exact ⟨_, entityRemove_entSt es ids p⟩
    | update =>
        simp only [entityReducerOf]
        rw [entityUpdate_entSt es ids p (h3 rfl)]
        exact ⟨_, rfl⟩
    | clear => exact ⟨_, rfl⟩
    | set => exact ⟨_, rfl⟩
    | addMany =>
        simp only [entityReducerOf]
        unfold entityAddMany
        rcases h2 rfl with hn | ⟨l, rfl, hl⟩ | ⟨t, rfl⟩
        · obtain ⟨s1, hs⟩ := foldl_addStep_ok [] es ids (by simp)
          refine ⟨s1, ?_⟩
          rw [hn]
          simpa using hs
        · obtain ⟨s1, hs⟩ := foldl_addStep_ok l.toList es ids hl
          refine ⟨s1, ?_⟩
          simpa [jsIterateEx] using hs
        · obtain ⟨s1, hs⟩ := foldl_addStep_ok
            (t.toList.map (fun c => JsVal.str (String.singleton c))) es ids
            (by intro y hy; simp at hy; obtain ⟨c, _, rfl⟩ := hy; rfl)
          refine ⟨s1, ?_⟩
          simpa [jsIterateEx] using hs
    | increment => exact entityIncrement_ok es ids p (h4 (Or.inl rfl))
    | toggle => exact entityToggle_ok es ids p (h4 (Or.inr rfl))
  · intro xs a v hno
    simp [arrayUpdate, hasPropB, JsVal.typeofObject, hno]
  · intro es ids idv ch h
    rw [entityUpdate_entSt es ids (.objL [("id", idv), ("changes", ch)]) rfl]
    have : getOwn (JsVal.objL [("id", idv), ("changes", ch)]) "id" = idv := by
      simp [lookupField]
    rw [this, h]

/-- Witness for the amended C1 at concrete inputs: collection `add` of a
number onto the empty sequence, and normalized-index `update` with a missing
identifier. -/
theorem claim1_witness :
    (∃ s1, arrayReducerOf .add (.arrL []) (JsVal.num 1) = .ok s1) ∧
    entityUpdate (entSt [] []) (.objL [("id", JsVal.str "a"), ("changes", JsVal.objL [])]) =
      .ok (entSt [] []) :=
  ⟨claim1_totality.1 .add [] (JsVal.num 1) (by simp) (by decide),
   claim1_totality.2.2.2.1 [] [] (JsVal.str "a") (JsVal.objL []) rfl⟩
